import Mathlib

/-!
Verification development for the stateViz repository.

The embedding translates the two core source files:
  - the shared types and the formula evaluator `calculateFormula`
    (src/unnamed/part_001), and
  - the state container (an xstate machine), `recalculateFormulas`,
    `loadState` and `saveState` (src/unnamed/part_000).

Modelling conventions, stated once here:
  - JavaScript numbers are modelled exactly, as fractions of integers
    (`JSRat`, a numerator/denominator pair, not normalized) extended with
    Infinity, -Infinity and NaN (`JSNum`).  Finite doubles are dyadic
    rationals, so every value the runtime can hold is representable; the
    model has no negative zero and no bit-level rounding, and number
    rendering uses plain decimal digits (the runtime switches to exponent
    text only at magnitudes >= 1e21, outside everything studied here).
  - Strings are Lean strings; whitespace means space, tab, newline or
    carriage return.
  - The runtime services used by the code (`new Function` expression
    evaluation, `Date.toISOString`/`new Date`, `Date.now`, `localStorage`)
    are not part of the repository, so they are modelled from the spec:
    each such definition carries a doc comment saying so.
  - The boundary regex the evaluator builds from a row name is modelled
    with the name read as literal text; names containing regex
    metacharacters (which the runtime would reinterpret) are outside the
    modelled domain.
-/

namespace StateViz

/-- Exact rational representation of a finite JavaScript number: a
numerator/denominator pair.  Operations do not normalize, so all
arithmetic is kernel-computable; normalization happens only when a
number is rendered to text. -/
structure JSRat where
  num : Int
  den : Int
deriving DecidableEq, Repr

/-- A JavaScript number: finite, Infinity, -Infinity or NaN. -/
inductive JSNum where
  | fin (q : JSRat)
  | inf
  | negInf
  | nan
deriving DecidableEq, Repr

/-- Numeric value of a `JSRat` as a mathematical rational. -/
def JSRat.toRat (q : JSRat) : ℚ := (q.num : ℚ) / (q.den : ℚ)

def JSRat.ofInt (n : Int) : JSRat := ⟨n, 1⟩

def JSRat.isZero (q : JSRat) : Bool := q.num == 0

def JSRat.isNeg (q : JSRat) : Bool := decide (q.num < 0) != decide (q.den < 0)

def JSRat.add (a b : JSRat) : JSRat := ⟨a.num * b.den + b.num * a.den, a.den * b.den⟩

def JSRat.sub (a b : JSRat) : JSRat := ⟨a.num * b.den - b.num * a.den, a.den * b.den⟩

def JSRat.mul (a b : JSRat) : JSRat := ⟨a.num * b.num, a.den * b.den⟩

def JSRat.neg (a : JSRat) : JSRat := ⟨-a.num, a.den⟩

/-- Addition of JavaScript numbers (NaN propagates, Infinity absorbs,
Infinity + -Infinity is NaN). -/
def JSNum.add : JSNum → JSNum → JSNum
  | .nan, _ => .nan
  | _, .nan => .nan
  | .fin a, .fin b => .fin (a.add b)
  | .inf, .negInf => .nan
  | .negInf, .inf => .nan
  | .inf, _ => .inf
  | _, .inf => .inf
  | .negInf, _ => .negInf
  | _, .negInf => .negInf

def JSNum.neg : JSNum → JSNum
  | .nan => .nan
  | .inf => .negInf
  | .negInf => .inf
  | .fin a => .fin a.neg

def JSNum.sub : JSNum → JSNum → JSNum
  | .nan, _ => .nan
  | _, .nan => .nan
  | .fin a, .fin b => .fin (a.sub b)
  | .inf, .inf => .nan
  | .negInf, .negInf => .nan
  | .inf, _ => .inf
  | .negInf, _ => .negInf
  | _, .inf => .negInf
  | _, .negInf => .inf

/-- Multiplication of JavaScript numbers (0 * Infinity is NaN). -/
def JSNum.mul : JSNum → JSNum → JSNum
  | .nan, _ => .nan
  | _, .nan => .nan
  | .fin a, .fin b => .fin (a.mul b)
  | .inf, .inf => .inf
  | .inf, .negInf => .negInf
  | .negInf, .inf => .negInf
  | .negInf, .negInf => .inf
  | .fin a, .inf => if a.isZero then .nan else if a.isNeg then .negInf else .inf
  | .inf, .fin a => if a.isZero then .nan else if a.isNeg then .negInf else .inf
  | .fin a, .negInf => if a.isZero then .nan else if a.isNeg then .inf else .negInf
  | .negInf, .fin a => if a.isZero then .nan else if a.isNeg then .inf else .negInf

/-- Division of JavaScript numbers: a finite number divided by zero gives
signed Infinity (NaN for 0/0), matching the runtime's semantics. -/
def JSNum.div : JSNum → JSNum → JSNum
  | .nan, _ => .nan
  | _, .nan => .nan
  | .fin a, .fin b =>
    if b.isZero then
      if a.isZero then .nan
      else if a.isNeg then .negInf else .inf
    else .fin ⟨a.num * b.den, a.den * b.num⟩
  | .inf, .inf => .nan
  | .inf, .negInf => .nan
  | .negInf, .inf => .nan
  | .negInf, .negInf => .nan
  | .inf, .fin a => if a.isNeg then .negInf else .inf
  | .negInf, .fin a => if a.isNeg then .inf else .negInf
  | .fin _, .inf => .fin ⟨0, 1⟩
  | .fin _, .negInf => .fin ⟨0, 1⟩

/-- Data value of a row: a string, a number, or a date instant
(identified with its epoch millisecond), mirroring
`value: string | number | Date` in part_001. -/
inductive Value where
  | num (q : JSRat)
  | str (s : String)
  | date (ms : Int)
deriving DecidableEq, Repr

/-- The `type` discriminator of a row (part_001, DataRow). -/
inductive RowType where
  | string
  | number
  | date
  | datetime
  | percentage
  | formula
deriving DecidableEq, Repr

/-- DataRow of part_001: id, name, value, type, and the optional
dateFormat, output, formula and result fields.  Absent optional fields
are `none`. -/
structure DataRow where
  id : Int
  name : String
  value : Value
  type : RowType
  dateFormat : Option String := none
  output : Option String := none
  formula : Option String := none
  result : Option JSNum := none
deriving DecidableEq, Repr

/-- StateTable of part_001: id, canvas position and row data. -/
structure StateTable where
  id : String
  position : JSRat × JSRat
  data : List DataRow
deriving DecidableEq, Repr

/-- StateTransition of part_001: a directed edge between two tables. -/
structure StateTransition where
  id : String
  fromId : String
  toId : String
  text : Option String := none
deriving DecidableEq, Repr

/-- Character class of the CJK range the evaluator's regexes single out. -/
def isCJK (c : Char) : Bool := 0x4e00 ≤ c.toNat && c.toNat ≤ 0x9fa5

/-- A word character in the boundary regex of part_001 line 233: an
ASCII word character or a CJK character (both are excluded from the
boundary class there). -/
def isIdentChar (c : Char) : Bool := c.isAlphanum || c == '_' || isCJK c

/-- The letter test of part_001 line 224, the regex
matching a Latin letter or a CJK character. -/
def isAlphaCJK (c : Char) : Bool := c.isAlpha || isCJK c

/-- Whitespace for trim/validation (space, tab, newline, carriage return). -/
def jsWhitespace (c : Char) : Bool := c.isWhitespace

def jsTrimL (l : List Char) : List Char :=
  ((l.dropWhile jsWhitespace).reverse.dropWhile jsWhitespace).reverse

/-- Model of String.prototype.trim. -/
def jsTrim (s : String) : String := ⟨jsTrimL s.toList⟩

def isPrefixL : List Char → List Char → Bool
  | [], _ => true
  | _ :: _, [] => false
  | a :: as, b :: bs => a == b && isPrefixL as bs

/-- Substring containment on char lists (needle first), modelling
String.prototype.includes. -/
def containsL (needle : List Char) : List Char → Bool
  | [] => needle.isEmpty
  | l@(_ :: rest) => isPrefixL needle l || containsL needle rest

/-- Model of hay.includes(needle). -/
def containsSub (hay needle : String) : Bool := containsL needle.toList hay.toList

def digitChar (d : Nat) : Char := Char.ofNat (48 + d)

/-- Decimal digits of a natural number, most significant first
(fuel-recursive so it is kernel-computable; fuel n always suffices). -/
def natPrintF : Nat → Nat → List Char
  | 0, n => [digitChar (n % 10)]
  | f + 1, n => if n < 10 then [digitChar n] else natPrintF f (n / 10) ++ [digitChar (n % 10)]

/-- Decimal digits of a natural number, most significant first. -/
def natPrint (n : Nat) : List Char := natPrintF n n

def natStrS (n : Nat) : String := ⟨natPrint n⟩

def intPrint (i : Int) : List Char :=
  if i < 0 then '-' :: natPrint i.natAbs else natPrint i.natAbs

def intStrS (i : Int) : String := ⟨intPrint i⟩

/-- Consume leading decimal digits, returning the accumulated value, the
count of digits consumed, and the rest. -/
def lexDigits : Nat → Nat → List Char → Nat × Nat × List Char
  | acc, k, [] => (acc, k, [])
  | acc, k, c :: cs =>
    if c.isDigit then lexDigits (10 * acc + (c.toNat - 48)) (k + 1) cs
    else (acc, k, c :: cs)

/-- Modelled from the spec (§4.4, §6): the `Date.toISOString` serialization
of a date instant.  Only the round-trip property (restoration to the same
epoch millisecond) is specified and used, so the calendar text is
abstracted to an injective decimal encoding of the epoch millisecond. -/
def dateToISO (ms : Int) : String := intStrS ms

/-- Modelled from the spec (§4.4, §6): `new Date(string)` applied to a
string produced by `dateToISO`, recovering the epoch millisecond. -/
def parseDateStr (s : String) : Int :=
  match s.toList with
  | [] => 0
  | c :: rest =>
    if c == '-' then -((lexDigits 0 0 rest).1 : Int)
    else ((lexDigits 0 0 (c :: rest)).1 : Int)

/-- Strip factors of `p` from `n` (fuel-recursive): returns the count of
factors removed and the remaining cofactor. -/
def stripFactor (p : Nat) : Nat → Nat → Nat × Nat
  | 0, n => (0, n)
  | f + 1, n =>
    if n % p == 0 && n > 1 then
      let r := stripFactor p f (n / p)
      (r.1 + 1, r.2)
    else (0, n)

def padLeftZeros (k : Nat) (l : List Char) : List Char :=
  List.replicate (k - l.length) '0' ++ l

/-- Modelled from the spec: the runtime's number-to-string conversion used
by the `(dollar)(value)` substitution template, on the plain-decimal
subdomain: magnitudes below 1e21.  At 1e21 and above the runtime emits
exponent text instead (e.g. "1e+21"), which the post-substitution
validation then rejects; theorems quantifying over numeric row values
therefore carry explicit bounds keeping them in the plain-decimal,
exactly-representable regime.  The fraction is reduced and rendered as a
finite decimal (reduced denominators of runtime doubles are powers of
two, so the finite-decimal branch always applies to values the runtime
can hold). -/
def ratRender (n d : Int) : List Char :=
  let neg := decide (n < 0) != decide (d < 0)
  let na := n.natAbs
  let da := d.natAbs
  let g := Nat.gcd na da
  let n1 := na / g
  let d1 := da / g
  if d1 = 1 then
    if neg && n1 != 0 then '-' :: natPrint n1 else natPrint n1
  else
    let s2 := stripFactor 2 d1 d1
    let s5 := stripFactor 5 s2.2 s2.2
    if s5.2 = 1 then
      let k := max s2.1 s5.1
      let total := n1 * 10 ^ k / d1
      let ip := total / 10 ^ k
      let fr := total % 10 ^ k
      let core := natPrint ip ++ '.' :: padLeftZeros k (natPrint fr)
      if neg then '-' :: core else core
    else
      ['?']

def numToString : JSNum → String
  | .nan => "NaN"
  | .inf => "Infinity"
  | .negInf => "-Infinity"
  | .fin q => ⟨ratRender q.num q.den⟩

/-- Modelled from the spec: the runtime's numeric coercion of a string
(`Number(value)`), on the plain decimal-literal subdomain: optional sign,
digits with an optional decimal point; empty or all-whitespace gives 0,
anything else gives NaN. -/
def jsStringToNum (s : String) : JSNum :=
  match jsTrimL s.toList with
  | [] => .fin ⟨0, 1⟩
  | l =>
    let sl : Int × List Char :=
      match l with
      | '-' :: r => (-1, r)
      | '+' :: r => (1, r)
      | r => (1, r)
    let d1 := lexDigits 0 0 sl.2
    match d1.2.2 with
    | [] => if d1.2.1 = 0 then .nan else .fin ⟨sl.1 * d1.1, 1⟩
    | '.' :: r2 =>
      let d2 := lexDigits 0 0 r2
      if d2.2.2 = [] && 0 < d1.2.1 + d2.2.1 then
        .fin ⟨sl.1 * ((d1.1 : Int) * 10 ^ d2.2.1 + d2.1), (10 : Int) ^ d2.2.1⟩
      else .nan
    | _ => .nan

/-- Numeric coercion of a row value (`Number(row.value)`): numbers are
themselves, date instants coerce to their epoch millisecond, strings are
parsed. -/
def valueToNumber : Value → JSNum
  | .num q => .fin q
  | .date ms => .fin ⟨ms, 1⟩
  | .str s => jsStringToNum s

def nanToZero : JSNum → JSNum
  | .nan => .fin ⟨0, 1⟩
  | v => v

/-- The per-row numeric value the evaluator stores in its name map
(part_001 lines 200-212): percentage and number rows use `Number(value)`
as-is; formula rows use `Number(value) || 0` (raw value, never the stored
result); other types use `Number(value)` with NaN defaulted to 0. -/
def rowCoerce (row : DataRow) : JSNum :=
  match row.type with
  | .percentage => valueToNumber row.value
  | .number => valueToNumber row.value
  | .formula =>
    match valueToNumber row.value with
    | .nan => .fin ⟨0, 1⟩
    | .fin q => if q.isZero then .fin ⟨0, 1⟩ else .fin q
    | v => v
  | _ => nanToZero (valueToNumber row.value)

/-- Lookahead test of the boundary regex: the next character (if any) must
not be a word character. -/
def lookOk : List Char → Bool
  | [] => true
  | c :: _ => !(isIdentChar c)

/-- Scanning part of the boundary-aware global replace of part_001 lines
230-235, for positions after the start of the string: a match consumes a
non-word boundary character followed by the name, with a non-word-or-end
lookahead; the boundary character is kept (the `(dollar)1` backreference)
and the name is replaced by `val`.  Scanning resumes after the consumed
match, mirroring the regex lastIndex semantics. -/
def replAfterF (n0 : Char) (ns val : List Char) : Nat → List Char → List Char
  | _, [] => []
  | 0, l => l
  | f + 1, c :: rest =>
    if !(isIdentChar c) && isPrefixL (n0 :: ns) rest && lookOk (rest.drop (ns.length + 1)) then
      c :: (val ++ replAfterF n0 ns val f (rest.drop (ns.length + 1)))
    else
      c :: replAfterF n0 ns val f rest

/-- Scanning with the canonical fuel (the input length, which always
suffices since every step consumes at least one character). -/
def replAfter (n0 : Char) (ns val hay : List Char) : List Char :=
  replAfterF n0 ns val hay.length hay

/-- Boundary-aware global replace (the regex of part_001 line 233 with the
name read as literal text): at position 0 the `^` alternative allows a
match with no boundary character. -/
def replaceVarL (name val hay : List Char) : List Char :=
  match name with
  | [] => hay
  | n0 :: ns =>
    if isPrefixL name hay && lookOk (hay.drop name.length) then
      val ++ replAfter n0 ns val (hay.drop name.length)
    else
      replAfter n0 ns val hay

def replaceVarS (name valStr expr : String) : String :=
  ⟨replaceVarL name.toList valStr.toList expr.toList⟩

/-- Token of the arithmetic expression grammar. -/
inductive Tok where
  | num (q : JSRat)
  | plus
  | minus
  | star
  | slash
  | lparen
  | rparen
deriving DecidableEq, Repr

/-- Modelled from the spec (§4.1 step 9): lexer for the validated
arithmetic text.  Adjacent `++` or `--` are rejected (the runtime lexes
them as increment/decrement, a syntax error on literals); number literals
are decimal digits with an optional decimal point. -/
def tokenizeConsStep (rec : List Char → Option (List Tok)) (c : Char) (cs : List Char) :
    Option (List Tok) :=
  if c.isWhitespace then rec cs
  else if c == '+' then
    if cs.head? == some '+' then none
    else (rec cs).map (Tok.plus :: ·)
  else if c == '-' then
    if cs.head? == some '-' then none
    else (rec cs).map (Tok.minus :: ·)
  else if c == '*' then (rec cs).map (Tok.star :: ·)
  else if c == '/' then (rec cs).map (Tok.slash :: ·)
  else if c == '(' then (rec cs).map (Tok.lparen :: ·)
  else if c == ')' then (rec cs).map (Tok.rparen :: ·)
  else if c.isDigit then
    if (lexDigits 0 0 (c :: cs)).2.2.head? == some '.' then
      (rec (lexDigits 0 0 (lexDigits 0 0 (c :: cs)).2.2.tail).2.2).map
        (Tok.num ⟨((lexDigits 0 0 (c :: cs)).1 : Int) *
            10 ^ (lexDigits 0 0 (lexDigits 0 0 (c :: cs)).2.2.tail).2.1 +
            ((lexDigits 0 0 (lexDigits 0 0 (c :: cs)).2.2.tail).1 : Int),
          (10 : Int) ^ (lexDigits 0 0 (lexDigits 0 0 (c :: cs)).2.2.tail).2.1⟩ :: ·)
    else (rec (lexDigits 0 0 (c :: cs)).2.2).map
        (Tok.num ⟨((lexDigits 0 0 (c :: cs)).1 : Int), 1⟩ :: ·)
  else if c == '.' then
    if (lexDigits 0 0 cs).2.1 == 0 then none
    else (rec (lexDigits 0 0 cs).2.2).map
        (Tok.num ⟨((lexDigits 0 0 cs).1 : Int), (10 : Int) ^ (lexDigits 0 0 cs).2.1⟩ :: ·)
  else none

def tokenizeStep (rec : List Char → Option (List Tok)) : List Char → Option (List Tok)
  | [] => some []
  | c :: cs => tokenizeConsStep rec c cs

def tokenizeF : Nat → List Char → Option (List Tok)
  | 0, _ => none
  | f + 1, l => tokenizeStep (tokenizeF f) l

def tokenize (l : List Char) : Option (List Tok) := tokenizeF (l.length + 1) l

mutual

/-- Modelled from the spec (§4.1 step 9): expression level of the
recursive-descent evaluator (addition and subtraction, left to right). -/
def parseE : Nat → List Tok → Option (JSNum × List Tok)
  | 0, _ => none
  | f + 1, ts =>
    match parseT f ts with
    | some (v, r) => parseESuf f v r
    | none => none

def parseESuf : Nat → JSNum → List Tok → Option (JSNum × List Tok)
  | 0, _, _ => none
  | f + 1, v, Tok.plus :: r =>
    (match parseT f r with
     | some (w, r2) => parseESuf f (v.add w) r2
     | none => none)
  | f + 1, v, Tok.minus :: r =>
    (match parseT f r with
     | some (w, r2) => parseESuf f (v.sub w) r2
     | none => none)
  | _ + 1, v, r => some (v, r)

/-- Term level: multiplication and division, left to right. -/
def parseT : Nat → List Tok → Option (JSNum × List Tok)
  | 0, _ => none
  | f + 1, ts =>
    match parseF f ts with
    | some (v, r) => parseTSuf f v r
    | none => none

def parseTSuf : Nat → JSNum → List Tok → Option (JSNum × List Tok)
  | 0, _, _ => none
  | f + 1, v, Tok.star :: r =>
    (match parseF f r with
     | some (w, r2) => parseTSuf f (v.mul w) r2
     | none => none)
  | f + 1, v, Tok.slash :: r =>
    (match parseF f r with
     | some (w, r2) => parseTSuf f (v.div w) r2
     | none => none)
  | _ + 1, v, r => some (v, r)

/-- Factor level: literals, unary sign, parentheses. -/
def parseF : Nat → List Tok → Option (JSNum × List Tok)
  | 0, _ => none
  | _ + 1, Tok.num q :: r => some (.fin q, r)
  | f + 1, Tok.plus :: r => parseF f r
  | f + 1, Tok.minus :: r => (parseF f r).map (fun p => (p.1.neg, p.2))
  | f + 1, Tok.lparen :: r =>
    (match parseE f r with
     | some (v, Tok.rparen :: r2) => some (v, r2)
     | _ => none)
  | _ + 1, _ => none

end

/-- Outcome of evaluating the generated function body: a value, or
undefined (an empty expression after `return`). -/
inductive EvalOut where
  | val (n : JSNum)
  | undef
deriving DecidableEq, Repr

/-- Modelled from the spec (§4.1 step 9): evaluation of
`new Function("return " + expression)()`.  `none` models a thrown
SyntaxError (malformed syntax, unbalanced parentheses); an empty token
stream yields undefined; otherwise the arithmetic value under standard
precedence with the runtime's Infinity/NaN semantics. -/
def runExpr (s : String) : Option EvalOut :=
  match tokenize s.toList with
  | none => none
  | some [] => some .undef
  | some ts =>
    match parseE (3 * ts.length + 3) ts with
    | some (v, []) => some (.val v)
    | _ => none

/-- A character allowed by the validation regex of part_001 line 238. -/
def validChar (c : Char) : Bool :=
  c.isDigit || c.isWhitespace || c == '+' || c == '-' || c == '*' || c == '/' ||
    c == '(' || c == ')' || c == '.'

/-- The validation of part_001 line 238: non-empty and made only of
digits, whitespace, arithmetic operators, parentheses and decimal points. -/
def validExpr (s : String) : Bool := !s.toList.isEmpty && s.toList.all validChar

/-- The letter test of part_001 line 224 applied to the whole expression. -/
def hasAlpha (s : String) : Bool := s.toList.any isAlphaCJK

/-- Comparator of the sort at part_001 line 193: name length descending.
`lenGE a b` says a may come before b. -/
def lenGE (a b : DataRow) : Prop := b.name.length ≤ a.name.length

instance : DecidableRel lenGE := fun _ _ => Nat.decLe _ _

instance : IsTotal DataRow lenGE := ⟨fun a b => Nat.le_total b.name.length a.name.length⟩

instance : IsTrans DataRow lenGE := ⟨fun _ _ _ h1 h2 => Nat.le_trans h2 h1⟩

/-- The stable length-descending sort of part_001 line 193. -/
def sortByNameLenDesc (l : List DataRow) : List DataRow := l.insertionSort lenGE

def hasKey (m : List (String × JSNum)) (k : String) : Bool := m.any (fun p => p.1 == k)

/-- One step of building the name-to-value map (part_001 lines 196-218):
rows with an empty name are skipped, and only the first occurrence of a
name is kept.  The map is an association list in insertion order, which
is also the runtime Map's iteration order. -/
def buildMapStep (m : List (String × JSNum)) (row : DataRow) : List (String × JSNum) :=
  if row.name == "" then m
  else if hasKey m row.name then m
  else m ++ [(row.name, rowCoerce row)]

def buildMap (l : List DataRow) : List (String × JSNum) := l.foldl buildMapStep []

/-- The candidate pool of part_001 lines 185-190: local rows followed by
every supplied table's rows, in order. -/
def poolOf (data : List DataRow) (tables : Option (List StateTable)) : List DataRow :=
  match tables with
  | none => data
  | some ts => ts.foldl (fun acc t => acc ++ t.data) data

/-- The name-to-value map the evaluator builds for a call. -/
def formulaMap (data : List DataRow) (tables : Option (List StateTable)) :
    List (String × JSNum) :=
  buildMap (sortByNameLenDesc (poolOf data tables))

/-- The `unresolved` list of part_001 line 222: map entries whose name
occurs as a substring of the (trimmed) expression. -/
def unresolvedIn (expr : String) (m : List (String × JSNum)) : List (String × JSNum) :=
  m.filter (fun p => containsSub expr p.1)

/-- The substitution loop of part_001 lines 230-235. -/
def substituteAll (expr : String) (pairs : List (String × JSNum)) : String :=
  pairs.foldl (fun e p => replaceVarS p.1 (numToString p.2) e) expr

/-- The evaluator body from the name map on: unknown-variable check,
substitution, character validation, evaluation, and the final
`typeof result === 'number'` filter; every failure path returns 0
(part_001 lines 220-250). -/
def calcFromMap (expr : String) (m : List (String × JSNum)) : JSNum :=
  if (unresolvedIn expr m).isEmpty && hasAlpha expr then .fin ⟨0, 1⟩
  else if !(validExpr (substituteAll expr (unresolvedIn expr m))) then .fin ⟨0, 1⟩
  else
    match runExpr (substituteAll expr (unresolvedIn expr m)) with
    | some (.val n) => n
    | some .undef => .fin ⟨0, 1⟩
    | none => .fin ⟨0, 1⟩

/-- calculateFormula of part_001 lines 180-251. -/
def calculateFormula (formula : String) (data : List DataRow)
    (tables : Option (List StateTable)) : JSNum :=
  calcFromMap (jsTrim formula) (formulaMap data tables)

/-- The expression after the substitution loop, just before validation
(the intermediate state of part_001 line 238). -/
def substitutedExpression (formula : String) (data : List DataRow)
    (tables : Option (List StateTable)) : String :=
  substituteAll (jsTrim formula) (unresolvedIn (jsTrim formula) (formulaMap data tables))

/-- Truthiness of the optional `formula` field (a non-empty string). -/
def formulaTruthy : Option String → Bool
  | none => false
  | some s => s != ""

/-- recalculateFormulas of part_000 lines 95-105: recompute `result` for
rows of type formula with a non-empty formula; all other rows pass
through unchanged. -/
def recalculateFormulas (data : List DataRow) (stateTables : List StateTable) : List DataRow :=
  data.map (fun row =>
    if row.type == RowType.formula && formulaTruthy row.formula then
      { row with result := some (calculateFormula (row.formula.getD "") data (some stateTables)) }
    else row)

def isDateValue : Value → Bool
  | .date _ => true
  | _ => false

def dateMsOf : Value → Int
  | .date ms => ms
  | _ => 0

def jsOrEmpty : Option String → String
  | none => ""
  | some s => s

/-- Per-row processing of saveState (part_000 lines 62-83): date-typed
rows holding a date instant serialize their value; otherwise rows with a
truthy formula get `result` recomputed against the freshest data; all
remaining rows get `output` and `formula` defaulted to the empty string. -/
def saveRow (tableData : List DataRow) (stateTables : List StateTable) (row : DataRow) :
    DataRow :=
  if row.type == RowType.date && isDateValue row.value then
    { row with value := Value.str (dateToISO (dateMsOf row.value)) }
  else if formulaTruthy row.formula then
    { row with result := some (calculateFormula (row.formula.getD "") tableData (some stateTables)) }
  else
    { row with output := some (jsOrEmpty row.output), formula := some (jsOrEmpty row.formula) }

/-- Modelled from the spec (§6): the JSON round trip applied to a stored
result.  JSON has no Infinity or NaN (they serialize to null, read back
as an absent result here), and finite numbers survive exactly. -/
def jsonResult : Option JSNum → Option JSNum
  | some (.fin q) => some (.fin q)
  | some _ => none
  | none => none

/-- Modelled from the spec (§6): the JSON round trip applied to a row
value: date instants serialize to their ISO text (the runtime Date's
toJSON), numbers and strings survive unchanged. -/
def jsonValue : Value → Value
  | .date ms => .str (dateToISO ms)
  | v => v

def jsonRow (row : DataRow) : DataRow :=
  { row with value := jsonValue row.value, result := jsonResult row.result }

def saveTable (stateTables : List StateTable) (t : StateTable) : StateTable :=
  { t with data := t.data.map (saveRow t.data stateTables) }

/-- saveState of part_000 lines 60-92 composed with the JSON round trip
of the storage write/read: the value returned is the parsed record a
subsequent load sees.  The storage medium itself is modelled as direct
hand-off of this record. -/
def saveState (stateTables : List StateTable) (stateTransitions : List StateTransition) :
    List StateTable × List StateTransition :=
  ((stateTables.map (saveTable stateTables)).map (fun t => { t with data := t.data.map jsonRow }),
    stateTransitions)

/-- Date rehydration of loadState (part_000 lines 31-40): date-typed rows
with a string value are converted back to a date instant. -/
def rehydrateRow (row : DataRow) : DataRow :=
  match row.type, row.value with
  | RowType.date, Value.str s => { row with value := Value.date (parseDateStr s) }
  | _, _ => row

/-- The forEach of part_000 lines 44-46, which reassigns each table's data
in place: the i-th table is recalculated against the array in which
tables before i are already updated and tables from i on are not. -/
def recalcTablesGo : List StateTable → List StateTable → List StateTable
  | done, [] => done
  | done, t :: rest =>
    recalcTablesGo (done ++ [{ t with data := recalculateFormulas t.data (done ++ t :: rest) }]) rest

/-- loadState of part_000 lines 22-57 applied to a stored record (the
success path: storage present and parsed). -/
def loadState (stored : List StateTable × List StateTransition) :
    List StateTable × List StateTransition :=
  (recalcTablesGo [] (stored.1.map (fun t => { t with data := t.data.map rehydrateRow })),
    stored.2)

/-- The two xstate states of part_000. -/
inductive MState where
  | idle
  | dialogOpen
deriving DecidableEq, Repr

/-- Machine snapshot: xstate state value plus context (part_000 lines
5-10 and 116-245). -/
structure Machine where
  mstate : MState
  stateTables : List StateTable
  stateTransitions : List StateTransition
  selectedTableId : Option String
  isDialogOpen : Bool
deriving DecidableEq, Repr

def initialMachine : Machine := ⟨.idle, [], [], none, false⟩

/-- Machine events (part_000 lines 13-19).  The three clock fields of
saveStateEv are modelled from the spec: they are the values the three
`Date.now()` call sites (new table id, new transition id, transition
toId) read while the event is handled; the spec notes they are issued
independently and may differ. -/
inductive Event where
  | openDialog (tableId : Option String)
  | closeDialog
  | saveStateEv (data : List DataRow) (t1 t2 t3 : Nat)
  | moveTable (tableId : String) (position : JSRat × JSRat)
  | deleteTable (tableId : String)
  | updateTransition (transitionId : String) (text : String)
deriving Repr

/-- One transition of the state machine of part_000 lines 116-245.
Unhandled events leave the machine unchanged (xstate semantics); both
assigners of SAVE_STATE read the pre-event context. -/
def step (m : Machine) (e : Event) : Machine :=
  match m.mstate, e with
  | .idle, .openDialog tid =>
    { m with mstate := .dialogOpen, isDialogOpen := true, selectedTableId := tid }
  | .idle, .moveTable tid pos =>
    { m with stateTables :=
        m.stateTables.map (fun t => if t.id == tid then { t with position := pos } else t) }
  | .idle, .deleteTable tid =>
    { m with
      stateTables := m.stateTables.filter (fun t => t.id != tid),
      stateTransitions :=
        m.stateTransitions.filter (fun tr => tr.fromId != tid && tr.toId != tid) }
  | .idle, .closeDialog => { m with isDialogOpen := false, selectedTableId := none }
  | .idle, .updateTransition trid txt =>
    { m with stateTransitions :=
        m.stateTransitions.map (fun tr =>
          if tr.id == trid then { tr with text := some txt } else tr) }
  | .dialogOpen, .saveStateEv data t1 t2 t3 =>
    let recalculatedData := recalculateFormulas data m.stateTables
    let newTables :=
      match m.selectedTableId with
      | some sid =>
        match m.stateTables.find? (fun t => t.id == sid) with
        | none => m.stateTables
        | some sourceTable =>
          m.stateTables ++
            [⟨"table-" ++ natStrS t1,
              (sourceTable.position.1.add ⟨500, 1⟩, sourceTable.position.2),
              recalculatedData⟩]
      | none =>
        m.stateTables ++ [⟨"table-" ++ natStrS t1, (⟨100, 1⟩, ⟨100, 1⟩), recalculatedData⟩]
    let newTransitions :=
      match m.selectedTableId with
      | some sid =>
        m.stateTransitions ++ [⟨"transition-" ++ natStrS t2, sid, "table-" ++ natStrS t3, none⟩]
      | none => m.stateTransitions
    { m with mstate := .idle, stateTables := newTables, stateTransitions := newTransitions }
  | .dialogOpen, .closeDialog =>
    { m with mstate := .idle, isDialogOpen := false, selectedTableId := none }
  | _, _ => m

theorem digitChar_toNat {d : Nat} (h : d < 10) : (digitChar d).toNat = 48 + d := by
  interval_cases d <;> decide

theorem digitChar_isDigit {d : Nat} (h : d < 10) : (digitChar d).isDigit = true := by
  interval_cases d <;> decide

theorem digitChar_ne_dash {d : Nat} (h : d < 10) : digitChar d ≠ '-' := by
  interval_cases d <;> decide

theorem natPrintF_all_digits : ∀ f n, ∀ c ∈ natPrintF f n, c.isDigit = true := by
  intro f
  induction f with
  | zero =>
    intro n c hc
    simp only [natPrintF, List.mem_singleton] at hc
    subst hc
    exact digitChar_isDigit (Nat.mod_lt _ (by omega))
  | succ f ih =>
    intro n c hc
    simp only [natPrintF] at hc
    split at hc
    · simp only [List.mem_singleton] at hc
      subst hc
      exact digitChar_isDigit (by omega)
    · rcases List.mem_append.mp hc with h1 | h1
      · exact ih _ _ h1
      · simp only [List.mem_singleton] at h1
        subst h1
        exact digitChar_isDigit (Nat.mod_lt _ (by omega))

theorem natPrintF_ne_nil (f n : Nat) : natPrintF f n ≠ [] := by
  cases f with
  | zero => simp [natPrintF]
  | succ f =>
    simp only [natPrintF]
    split
    · simp
    · simp

theorem natPrint_all_digits (n : Nat) : ∀ c ∈ natPrint n, c.isDigit = true :=
  natPrintF_all_digits n n

theorem natPrint_ne_nil (n : Nat) : natPrint n ≠ [] := natPrintF_ne_nil n n

theorem natPrintF_foldl : ∀ f n acc, n ≤ f →
    List.foldl (fun a c => 10 * a + (c.toNat - 48)) acc (natPrintF f n) =
      acc * 10 ^ (natPrintF f n).length + n := by
  intro f
  induction f with
  | zero =>
    intro n acc hn
    interval_cases n
    simp [natPrintF, digitChar_toNat]
    ring
  | succ f ih =>
    intro n acc hn
    simp only [natPrintF]
    split
    · rename_i h10
      simp [digitChar_toNat h10]
      omega
    · rename_i h10
      push_neg at h10
      have hdiv : n / 10 ≤ f := by omega
      rw [List.foldl_append]
      simp only [List.foldl_cons, List.foldl_nil]
      rw [ih (n / 10) acc hdiv]
      rw [digitChar_toNat (Nat.mod_lt _ (by omega))]
      simp only [List.length_append, List.length_singleton]
      have : 48 + n % 10 - 48 = n % 10 := by omega
      rw [this, pow_succ]
      have hmod := Nat.div_add_mod n 10
      ring_nf
      omega

theorem natPrint_foldl (n : Nat) :
    List.foldl (fun a c => 10 * a + (c.toNat - 48)) 0 (natPrint n) = n := by
  have := natPrintF_foldl n n 0 le_rfl
  simpa using this

theorem lexDigits_digit_run : ∀ (l : List Char) (acc k : Nat) (rest : List Char),
    (∀ c ∈ l, c.isDigit = true) →
    rest.head?.all (fun c => !c.isDigit) = true →
    lexDigits acc k (l ++ rest) =
      (List.foldl (fun a c => 10 * a + (c.toNat - 48)) acc l, k + l.length, rest) := by
  intro l
  induction l with
  | nil =>
    intro acc k rest _ hrest
    cases rest with
    | nil => simp [lexDigits]
    | cons c cs =>
      simp only [Option.all_some, List.head?_cons, Bool.not_eq_true'] at hrest
      simp [lexDigits, hrest]
  | cons c l ih =>
    intro acc k rest hl hrest
    have hc : c.isDigit = true := hl c (List.mem_cons_self c l)
    simp only [List.cons_append, lexDigits, hc, if_true, List.append_eq]
    rw [ih _ _ _ (fun x hx => hl x (List.mem_cons_of_mem _ hx)) hrest]
    simp only [List.length_cons, List.foldl_cons, Prod.mk.injEq]
    exact ⟨trivial, by omega, trivial⟩

theorem lexDigits_natPrint (n : Nat) (rest : List Char)
    (hrest : rest.head?.all (fun c => !c.isDigit) = true) :
    lexDigits 0 0 (natPrint n ++ rest) = (n, (natPrint n).length, rest) := by
  rw [lexDigits_digit_run _ _ _ _ (natPrint_all_digits n) hrest]
  rw [natPrint_foldl]
  simp

theorem string_toList_mk (l : List Char) : String.toList ⟨l⟩ = l := rfl

/-- The abstract ISO encoding of a date instant round-trips: parsing the
serialized text recovers the epoch millisecond. -/
theorem parseDateStr_dateToISO (ms : Int) : parseDateStr (dateToISO ms) = ms := by
  have h0 := lexDigits_natPrint ms.natAbs [] (by simp)
  rw [List.append_nil] at h0
  obtain ⟨c, t, hct⟩ := List.exists_cons_of_ne_nil (natPrint_ne_nil ms.natAbs)
  have hcd : c.isDigit = true := by
    apply natPrint_all_digits
    rw [hct]; exact List.mem_cons_self c t
  have hcne : (c == '-') = false := by
    cases hcc : c == '-'
    · rfl
    · rw [beq_iff_eq] at hcc
      rw [hcc] at hcd
      exact absurd hcd (by decide)
  by_cases hneg : ms < 0
  · have hiso : dateToISO ms = ⟨'-' :: natPrint ms.natAbs⟩ := by
      unfold dateToISO intStrS intPrint
      rw [if_pos hneg]
    rw [hiso]
    simp only [parseDateStr, string_toList_mk]
    simp only [show ('-' == '-') = true from rfl, if_true, h0]
    omega
  · have hiso : dateToISO ms = ⟨natPrint ms.natAbs⟩ := by
      unfold dateToISO intStrS intPrint
      rw [if_neg hneg]
    rw [hiso]
    simp only [parseDateStr, string_toList_mk]
    rw [hct]
    simp only [hcne, Bool.false_eq_true, if_false]
    rw [← hct, h0]
    omega

theorem mem_sortByNameLenDesc {a : DataRow} {l : List DataRow} :
    a ∈ sortByNameLenDesc l ↔ a ∈ l :=
  (List.perm_insertionSort lenGE l).mem_iff

theorem sorted_sortByNameLenDesc (l : List DataRow) :
    List.Sorted lenGE (sortByNameLenDesc l) :=
  List.sorted_insertionSort lenGE l

theorem mem_buildMapStep_of_mem {p : String × JSNum} {acc : List (String × JSNum)}
    {r : DataRow} (h : p ∈ acc) : p ∈ buildMapStep acc r := by
  unfold buildMapStep
  split
  · exact h
  split
  · exact h
  · exact List.mem_append_left _ h

theorem mem_foldl_buildMapStep_of_mem {p : String × JSNum} :
    ∀ (l : List DataRow) (acc : List (String × JSNum)),
      p ∈ acc → p ∈ l.foldl buildMapStep acc := by
  intro l
  induction l with
  | nil => exact fun acc h => h
  | cons r l ih =>
    intro acc h
    exact ih _ (mem_buildMapStep_of_mem h)

theorem hasKey_false_iff {m : List (String × JSNum)} {k : String} :
    hasKey m k = false ↔ ∀ p ∈ m, p.1 ≠ k := by
  unfold hasKey
  rw [List.any_eq_false]
  constructor
  · intro h p hp
    have := h p hp
    simpa using this
  · intro h p hp
    simpa using h p hp

theorem hasKey_buildMapStep {acc : List (String × JSNum)} {r : DataRow} {k : String}
    (hk : r.name ≠ k) : hasKey (buildMapStep acc r) k = hasKey acc k := by
  unfold buildMapStep
  split
  · rfl
  split
  · rfl
  · unfold hasKey
    rw [List.any_append]
    simp only [List.any_cons, List.any_nil, Bool.or_false]
    have : (r.name == k) = false := by simpa using hk
    rw [this]
    simp

theorem foldl_buildMapStep_sources :
    ∀ (l : List DataRow) (acc : List (String × JSNum)) (p : String × JSNum),
      p ∈ l.foldl buildMapStep acc →
      p ∈ acc ∨ ∃ r ∈ l, r.name = p.1 ∧ rowCoerce r = p.2 ∧ r.name ≠ "" := by
  intro l
  induction l with
  | nil => exact fun acc p h => Or.inl h
  | cons r l ih =>
    intro acc p h
    rcases ih _ _ h with h1 | h1
    · unfold buildMapStep at h1
      split at h1
      · exact Or.inl h1
      · rename_i hne
        split at h1
        · exact Or.inl h1
        · rcases List.mem_append.mp h1 with h2 | h2
          · exact Or.inl h2
          · simp only [List.mem_singleton] at h2
            refine Or.inr ⟨r, List.mem_cons_self r l, ?_, ?_, ?_⟩
            · rw [h2]
            · rw [h2]
            · simpa using hne
    · obtain ⟨x, hx, hx2⟩ := h1
      exact Or.inr ⟨x, List.mem_cons_of_mem _ hx, hx2⟩

theorem buildMap_sources {p : String × JSNum} {l : List DataRow} (h : p ∈ buildMap l) :
    ∃ r ∈ l, r.name = p.1 ∧ rowCoerce r = p.2 ∧ r.name ≠ "" := by
  rcases foldl_buildMapStep_sources l [] p h with h1 | h1
  · simp at h1
  · exact h1

theorem buildMap_first_wins {nm : String} {v : JSNum} :
    ∀ (l : List DataRow) (acc : List (String × JSNum)),
      (∃ r ∈ l, r.name = nm) →
      (∀ r ∈ l, r.name = nm → rowCoerce r = v) →
      nm ≠ "" →
      (hasKey acc nm = false ∨ (nm, v) ∈ acc) →
      (nm, v) ∈ l.foldl buildMapStep acc := by
  intro l
  induction l with
  | nil =>
    intro acc hmem _ _ _
    simp at hmem
  | cons r l ih =>
    intro acc hmem hval hnm hacc
    by_cases hr : r.name = nm
    · have hv : rowCoerce r = v := hval r (List.mem_cons_self r l) hr
      rcases hacc with hk | hin
      · have hstep : (nm, v) ∈ buildMapStep acc r := by
          unfold buildMapStep
          have h1 : (r.name == "") = false := by
            rw [hr]; simpa using hnm
          rw [if_neg (by simp [h1]), hr, hk]
          simp only [Bool.false_eq_true, if_false]
          exact List.mem_append_right _ (by simp [hv])
        rw [List.foldl_cons]
        exact mem_foldl_buildMapStep_of_mem l _ hstep
      · rw [List.foldl_cons]
        exact mem_foldl_buildMapStep_of_mem l _ (mem_buildMapStep_of_mem hin)
    · have hmem' : ∃ x ∈ l, x.name = nm := by
        obtain ⟨x, hx, hxn⟩ := hmem
        rcases List.mem_cons.mp hx with he | he
        · exact absurd (he ▸ hxn) hr
        · exact ⟨x, he, hxn⟩
      apply ih (buildMapStep acc r) hmem'
        (fun x hx hxn => hval x (List.mem_cons_of_mem _ hx) hxn) hnm
      rcases hacc with hk | hin
      · exact Or.inl (by rw [hasKey_buildMapStep hr]; exact hk)
      · exact Or.inr (mem_buildMapStep_of_mem hin)

theorem buildMap_keys_distinct :
    ∀ (l : List DataRow) (acc : List (String × JSNum)),
      acc.Pairwise (fun p q => p.1 ≠ q.1) →
      (l.foldl buildMapStep acc).Pairwise (fun p q => p.1 ≠ q.1) := by
  intro l
  induction l with
  | nil => exact fun acc h => h
  | cons r l ih =>
    intro acc hacc
    apply ih
    unfold buildMapStep
    split
    · exact hacc
    split
    · exact hacc
    · rename_i hkey
      rw [List.pairwise_append]
      refine ⟨hacc, by simp, ?_⟩
      intro p hp q hq
      simp only [List.mem_singleton] at hq
      subst hq
      have := (hasKey_false_iff.mp (by simpa using hkey)) p hp
      simpa using this

theorem unresolvedIn_eq_singleton {expr nm : String} {v : JSNum} :
    ∀ {m : List (String × JSNum)},
      (nm, v) ∈ m →
      m.Pairwise (fun p q => p.1 ≠ q.1) →
      containsSub expr nm = true →
      (∀ p ∈ m, p.1 ≠ nm → containsSub expr p.1 = false) →
      unresolvedIn expr m = [(nm, v)] := by
  intro m
  induction m with
  | nil => intro h; simp at h
  | cons p m ih =>
    intro hmem hdist hP hothers
    rcases List.mem_cons.mp hmem with he | he
    · subst he
      unfold unresolvedIn
      simp only [List.filter_cons, hP, if_true]
      have hrest : List.filter (fun q => containsSub expr q.1) m = [] := by
        apply List.filter_eq_nil_iff.mpr
        intro q hq
        have hne : q.1 ≠ nm := by
          have := (List.pairwise_cons.mp hdist).1 q hq
          exact fun hc => this (hc ▸ rfl)
        simp [hothers q (List.mem_cons_of_mem _ hq) hne]
      rw [hrest]
    · have hpn : p.1 ≠ nm := by
        have := (List.pairwise_cons.mp hdist).1 (nm, v) he
        exact fun hc => this (by rw [hc])
      unfold unresolvedIn
      simp only [List.filter_cons, hothers p (List.mem_cons_self p m) hpn]
      simp only [Bool.false_eq_true, if_false]
      exact ih he (List.pairwise_cons.mp hdist).2 hP
        (fun q hq => hothers q (List.mem_cons_of_mem _ hq))

theorem isPrefixL_cons {a : Char} {as l : List Char} :
    isPrefixL (a :: as) l = true ↔ ∃ t, l = a :: t ∧ isPrefixL as t = true := by
  cases l with
  | nil => simp [isPrefixL]
  | cons b t =>
    simp only [isPrefixL, Bool.and_eq_true, beq_iff_eq]
    constructor
    · rintro ⟨h1, h2⟩
      exact ⟨t, by rw [h1], h2⟩
    · rintro ⟨t2, ht, h2⟩
      obtain ⟨h3, h4⟩ := List.cons.injEq .. ▸ ht
      exact ⟨h3.symm, h4 ▸ h2⟩

theorem replAfterF_fuel : ∀ (n : Nat) (n0 : Char) (ns val : List Char) (l : List Char)
    (f g : Nat), l.length ≤ n → l.length ≤ f → l.length ≤ g →
    replAfterF n0 ns val f l = replAfterF n0 ns val g l := by
  intro n
  induction n with
  | zero =>
    intro n0 ns val l f g hn _ _
    have : l = [] := List.length_eq_zero.mp (Nat.le_zero.mp hn)
    subst this
    cases f <;> cases g <;> rfl
  | succ n ih =>
    intro n0 ns val l f g hn hf hg
    cases l with
    | nil => cases f <;> cases g <;> rfl
    | cons c rest =>
      simp only [List.length_cons] at hn hf hg
      obtain ⟨f2, rfl⟩ : ∃ f2, f = f2 + 1 := ⟨f - 1, by omega⟩
      obtain ⟨g2, rfl⟩ : ∃ g2, g = g2 + 1 := ⟨g - 1, by omega⟩
      simp only [replAfterF]
      split
      · have hlen : (rest.drop (ns.length + 1)).length ≤ rest.length := by
          simp [List.length_drop]
        rw [ih n0 ns val _ f2 g2 (by omega) (by omega) (by omega)]
      · rw [ih n0 ns val rest f2 g2 (by omega) (by omega) (by omega)]

theorem replAfter_nil (n0 : Char) (ns val : List Char) : replAfter n0 ns val [] = [] := rfl

theorem replAfter_cons (n0 : Char) (ns val : List Char) (c : Char) (l : List Char) :
    replAfter n0 ns val (c :: l) =
      if !(isIdentChar c) && isPrefixL (n0 :: ns) l && lookOk (l.drop (ns.length + 1)) then
        c :: (val ++ replAfter n0 ns val (l.drop (ns.length + 1)))
      else c :: replAfter n0 ns val l := by
  unfold replAfter
  simp only [List.length_cons, replAfterF]
  split
  · rw [replAfterF_fuel (l.drop (ns.length + 1)).length n0 ns val _ l.length _ le_rfl
      (by simp [List.length_drop]) le_rfl]
  · rfl

theorem replAfter_cons_ident {n0 : Char} {ns val : List Char} {c : Char} (l : List Char)
    (hc : isIdentChar c = true) :
    replAfter n0 ns val (c :: l) = c :: replAfter n0 ns val l := by
  rw [replAfter_cons]
  simp [hc]

theorem replAfter_ident_append {n0 : Char} {ns val : List Char} :
    ∀ (l1 l2 : List Char), (∀ c ∈ l1, isIdentChar c = true) →
      replAfter n0 ns val (l1 ++ l2) = l1 ++ replAfter n0 ns val l2 := by
  intro l1
  induction l1 with
  | nil => intro l2 _; rfl
  | cons c l1 ih =>
    intro l2 h
    rw [List.cons_append, replAfter_cons_ident _ (h c (List.mem_cons_self c l1)),
      ih l2 (fun x hx => h x (List.mem_cons_of_mem _ hx))]
    rfl

theorem replAfter_not_mem {n0 : Char} {ns val : List Char} :
    ∀ {l : List Char}, n0 ∉ l → replAfter n0 ns val l = l := by
  intro l
  induction l with
  | nil => intro _; rfl
  | cons c rest ih =>
    intro h
    rw [replAfter_cons]
    have hpre : isPrefixL (n0 :: ns) rest = false := by
      cases hp : isPrefixL (n0 :: ns) rest
      · rfl
      · obtain ⟨t, ht, _⟩ := isPrefixL_cons.mp hp
        exact absurd (by rw [ht]; exact List.mem_cons_of_mem _ (List.mem_cons_self n0 t)) h
    rw [hpre]
    simp only [Bool.and_false, Bool.false_and, Bool.false_eq_true, if_false]
    rw [ih (fun hm => h (List.mem_cons_of_mem _ hm))]

theorem lexDigits_rest_length : ∀ (l : List Char) (acc k : Nat),
    (lexDigits acc k l).2.2.length ≤ l.length := by
  intro l
  induction l with
  | nil => intro acc k; simp [lexDigits]
  | cons c cs ih =>
    intro acc k
    simp only [lexDigits]
    split
    · exact Nat.le_trans (ih _ _) (by simp)
    · simp

theorem ne_char_of_isDigit {c x : Char} (h : c.isDigit = true) (hx : x.isDigit = false) :
    (c == x) = false := by
  cases hcx : c == x
  · rfl
  · rw [beq_iff_eq] at hcx
    subst hcx
    rw [h] at hx
    cases hx

theorem isWhitespace_of_isDigit {c : Char} (h : c.isDigit = true) :
    c.isWhitespace = false := by
  cases hw : c.isWhitespace
  · rfl
  · exfalso
    simp only [Char.isWhitespace, Bool.or_eq_true, decide_eq_true_eq] at hw
    rcases hw with ((h1 | h1) | h1) | h1 <;> (subst h1; exact absurd h (by decide))


theorem tokenizeConsStep_congr (r1 r2 : List Char → Option (List Tok)) (c : Char)
    (cs : List Char) (h : ∀ x : List Char, x.length ≤ cs.length → r1 x = r2 x) :
    tokenizeConsStep r1 c cs = tokenizeConsStep r2 c cs := by
  unfold tokenizeConsStep
  by_cases h1 : c.isWhitespace = true
  · rw [if_pos h1, if_pos h1]; exact h cs le_rfl
  rw [if_neg h1, if_neg h1]
  by_cases h2 : (c == '+') = true
  · rw [if_pos h2, if_pos h2]
    by_cases h2b : (cs.head? == some '+') = true
    · rw [if_pos h2b, if_pos h2b]
    · rw [if_neg h2b, if_neg h2b, h cs le_rfl]
  rw [if_neg h2, if_neg h2]
  by_cases h3 : (c == '-') = true
  · rw [if_pos h3, if_pos h3]
    by_cases h3b : (cs.head? == some '-') = true
    · rw [if_pos h3b, if_pos h3b]
    · rw [if_neg h3b, if_neg h3b, h cs le_rfl]
  rw [if_neg h3, if_neg h3]
  by_cases h4 : (c == '*') = true
  · rw [if_pos h4, if_pos h4, h cs le_rfl]
  rw [if_neg h4, if_neg h4]
  by_cases h5 : (c == '/') = true
  · rw [if_pos h5, if_pos h5, h cs le_rfl]
  rw [if_neg h5, if_neg h5]
  by_cases h6 : (c == '(') = true
  · rw [if_pos h6, if_pos h6, h cs le_rfl]
  rw [if_neg h6, if_neg h6]
  by_cases h7 : (c == ')') = true
  · rw [if_pos h7, if_pos h7, h cs le_rfl]
  rw [if_neg h7, if_neg h7]
  by_cases h9 : c.isDigit = true
  · rw [if_pos h9, if_pos h9]
    have hd1 : (lexDigits 0 0 (c :: cs)).2.2.length ≤ cs.length := by
      simp only [lexDigits, h9, if_true]
      exact lexDigits_rest_length cs _ _
    by_cases h9b : ((lexDigits 0 0 (c :: cs)).2.2.head? == some '.') = true
    · rw [if_pos h9b, if_pos h9b]
      rw [h _ (by
        have h2l := lexDigits_rest_length (lexDigits 0 0 (c :: cs)).2.2.tail 0 0
        have ht := List.length_tail (lexDigits 0 0 (c :: cs)).2.2
        omega)]
    · rw [if_neg h9b, if_neg h9b, h _ hd1]
  rw [if_neg h9, if_neg h9]
  by_cases h10 : (c == '.') = true
  · rw [if_pos h10, if_pos h10]
    by_cases h10b : ((lexDigits 0 0 cs).2.1 == 0) = true
    · rw [if_pos h10b, if_pos h10b]
    · rw [if_neg h10b, if_neg h10b, h _ (lexDigits_rest_length cs 0 0)]
  · rw [if_neg h10, if_neg h10]

theorem tokenizeF_fuel : ∀ (n : Nat) (l : List Char) (f g : Nat),
    l.length ≤ n → l.length < f → l.length < g →
    tokenizeF f l = tokenizeF g l := by
  intro n
  induction n with
  | zero =>
    intro l f g hn hf hg
    have hl : l = [] := List.length_eq_zero.mp (Nat.le_zero.mp hn)
    subst hl
    obtain ⟨f2, rfl⟩ : ∃ f2, f = f2 + 1 := ⟨f - 1, by omega⟩
    obtain ⟨g2, rfl⟩ : ∃ g2, g = g2 + 1 := ⟨g - 1, by omega⟩
    rfl
  | succ n ih =>
    intro l f g hn hf hg
    cases l with
    | nil =>
      obtain ⟨f2, rfl⟩ : ∃ f2, f = f2 + 1 := ⟨f - 1, by omega⟩
      obtain ⟨g2, rfl⟩ : ∃ g2, g = g2 + 1 := ⟨g - 1, by omega⟩
      rfl
    | cons c cs =>
      simp only [List.length_cons] at hn hf hg
      obtain ⟨f2, rfl⟩ : ∃ f2, f = f2 + 1 := ⟨f - 1, by omega⟩
      obtain ⟨g2, rfl⟩ : ∃ g2, g = g2 + 1 := ⟨g - 1, by omega⟩
      show tokenizeConsStep (tokenizeF f2) c cs = tokenizeConsStep (tokenizeF g2) c cs
      exact tokenizeConsStep_congr _ _ c cs
        (fun x hx => ih x f2 g2 (by omega) (by omega) (by omega))

theorem tokenizeF_canonical {l : List Char} {f : Nat} (hf : l.length < f) :
    tokenizeF f l = tokenize l :=
  tokenizeF_fuel l.length l f (l.length + 1) le_rfl hf (by omega)

/-- One canonical unfolding step of the tokenizer. -/
theorem tokenize_eq_step (l : List Char) : tokenize l = tokenizeStep tokenize l := by
  cases l with
  | nil => rfl
  | cons c cs =>
    show tokenizeConsStep (tokenizeF (cs.length + 1)) c cs = tokenizeConsStep tokenize c cs
    exact tokenizeConsStep_congr _ _ c cs
      (fun x hx => tokenizeF_canonical (by omega))

theorem tokenize_cons_ws {c : Char} (l : List Char) (hc : c.isWhitespace = true) :
    tokenize (c :: l) = tokenize l := by
  rw [tokenize_eq_step]
  show tokenizeConsStep tokenize c l = tokenize l
  unfold tokenizeConsStep
  rw [if_pos hc]

theorem tokenize_cons_plus (l : List Char) (hl : (l.head? == some '+') = false) :
    tokenize ('+' :: l) = (tokenize l).map (Tok.plus :: ·) := by
  rw [tokenize_eq_step]
  show tokenizeConsStep tokenize '+' l = _
  unfold tokenizeConsStep
  rw [if_neg (show ¬('+'.isWhitespace = true) by decide)]
  rw [if_pos (show ('+' == '+') = true by decide)]
  simp only [hl, Bool.false_eq_true, if_false]

theorem tokenize_cons_star (l : List Char) :
    tokenize ('*' :: l) = (tokenize l).map (Tok.star :: ·) := by
  rw [tokenize_eq_step]
  show tokenizeConsStep tokenize '*' l = _
  unfold tokenizeConsStep
  rw [if_neg (show ¬('*'.isWhitespace = true) by decide)]
  rw [if_neg (show ¬(('*' == '+') = true) by decide)]
  rw [if_neg (show ¬(('*' == '-') = true) by decide)]
  rw [if_pos (show ('*' == '*') = true by decide)]

theorem tokenize_digit_run {l1 rest : List Char} (h1 : ∀ c ∈ l1, c.isDigit = true)
    (hne : l1 ≠ [])
    (hrest : rest.head?.all (fun c => !(c.isDigit || c == '.')) = true) :
    tokenize (l1 ++ rest) =
      (tokenize rest).map
        (Tok.num ⟨(Int.ofNat (List.foldl (fun a c => 10 * a + (c.toNat - 48)) 0 l1)), 1⟩ :: ·) := by
  have hrestd : rest.head?.all (fun c => !c.isDigit) = true := by
    cases rest with
    | nil => rfl
    | cons x t =>
      simp only [List.head?_cons, Option.all_some, Bool.not_eq_true',
        Bool.or_eq_false_iff] at hrest ⊢
      exact hrest.1
  obtain ⟨c, t, rfl⟩ := List.exists_cons_of_ne_nil hne
  have hcd : c.isDigit = true := h1 c (List.mem_cons_self c t)
  have hlex := lexDigits_digit_run (c :: t) 0 0 rest h1 hrestd
  rw [List.cons_append, tokenize_eq_step]
  show tokenizeConsStep tokenize c (t ++ rest) = _
  unfold tokenizeConsStep
  rw [if_neg (by simp [isWhitespace_of_isDigit hcd])]
  rw [if_neg (by simp [ne_char_of_isDigit hcd (show ('+').isDigit = false by decide)])]
  rw [if_neg (by simp [ne_char_of_isDigit hcd (show ('-').isDigit = false by decide)])]
  rw [if_neg (by simp [ne_char_of_isDigit hcd (show ('*').isDigit = false by decide)])]
  rw [if_neg (by simp [ne_char_of_isDigit hcd (show ('/').isDigit = false by decide)])]
  rw [if_neg (by simp [ne_char_of_isDigit hcd (show ('(').isDigit = false by decide)])]
  rw [if_neg (by simp [ne_char_of_isDigit hcd (show (')').isDigit = false by decide)])]
  rw [if_pos hcd]
  rw [← List.cons_append, hlex]
  have hdot : ((rest.head? == some '.') = false) := by
    cases rest with
    | nil => rfl
    | cons x t2 =>
      simp only [List.head?_cons, Option.all_some, Bool.not_eq_true',
        Bool.or_eq_false_iff] at hrest
      simp only [List.head?_cons]
      simpa using hrest.2
  simp only [hdot, Bool.false_eq_true, if_false]
  rfl

theorem tokenize_natPrint (n : Nat) (rest : List Char)
    (hrest : rest.head?.all (fun c => !(c.isDigit || c == '.')) = true) :
    tokenize (natPrint n ++ rest) =
      (tokenize rest).map (Tok.num ⟨(n : Int), 1⟩ :: ·) := by
  rw [tokenize_digit_run (natPrint_all_digits n) (natPrint_ne_nil n) hrest, natPrint_foldl n]
  rfl

theorem rowCoerce_congr {a b : DataRow}
    (ht : a.type = b.type) (hv : a.value = b.value) : rowCoerce a = rowCoerce b := by
  unfold rowCoerce
  rw [ht, hv]

theorem forall₂_orderedInsert {R : DataRow → DataRow → Prop}
    (hR : ∀ a b, R a b → a.name = b.name) :
    ∀ {a b : DataRow} {l1 l2 : List DataRow}, R a b → List.Forall₂ R l1 l2 →
      List.Forall₂ R (List.orderedInsert lenGE a l1) (List.orderedInsert lenGE b l2) := by
  intro a b l1 l2 hab h12
  induction h12 with
  | nil => exact .cons hab .nil
  | cons hxy hl ih =>
    rename_i x y l1a l2a
    simp only [List.orderedInsert]
    by_cases hc : lenGE a x
    · have hc2 : lenGE b y := by
        unfold lenGE at hc ⊢
        rw [← hR a b hab, ← hR x y hxy]
        exact hc
      rw [if_pos hc, if_pos hc2]
      exact .cons hab (.cons hxy hl)
    · have hc2 : ¬ lenGE b y := by
        unfold lenGE at hc ⊢
        rw [← hR a b hab, ← hR x y hxy]
        exact hc
      rw [if_neg hc, if_neg hc2]
      exact .cons hxy ih

theorem forall₂_insertionSort {R : DataRow → DataRow → Prop}
    (hR : ∀ a b, R a b → a.name = b.name) :
    ∀ {l1 l2 : List DataRow}, List.Forall₂ R l1 l2 →
      List.Forall₂ R (List.insertionSort lenGE l1) (List.insertionSort lenGE l2) := by
  intro l1 l2 h
  induction h with
  | nil => exact .nil
  | cons hxy hl ih =>
    simp only [List.insertionSort]
    exact forall₂_orderedInsert hR hxy ih

theorem buildMap_forall₂ {R : DataRow → DataRow → Prop}
    (hR : ∀ a b, R a b → a.name = b.name ∧ a.type = b.type ∧ a.value = b.value) :
    ∀ {l1 l2 : List DataRow}, List.Forall₂ R l1 l2 →
      ∀ acc, l1.foldl buildMapStep acc = l2.foldl buildMapStep acc := by
  intro l1 l2 h
  induction h with
  | nil => intro acc; rfl
  | cons hxy hl ih =>
    intro acc
    rename_i x y l1a l2a
    simp only [List.foldl_cons]
    obtain ⟨hn, ht, hv⟩ := hR x y hxy
    have hstep : buildMapStep acc x = buildMapStep acc y := by
      unfold buildMapStep
      rw [hn, rowCoerce_congr ht hv]
    rw [hstep]
    exact ih _

theorem poolOf_forall₂ {R : DataRow → DataRow → Prop}
    (hrefl : ∀ a, R a a) {data1 data2 : List DataRow}
    (h : List.Forall₂ R data1 data2) (tables : Option (List StateTable)) :
    List.Forall₂ R (poolOf data1 tables) (poolOf data2 tables) := by
  cases tables with
  | none => exact h
  | some ts =>
    show List.Forall₂ R (ts.foldl (fun acc t => acc ++ t.data) data1)
      (ts.foldl (fun acc t => acc ++ t.data) data2)
    induction ts generalizing data1 data2 with
    | nil => exact h
    | cons t ts ih =>
      simp only [List.foldl_cons]
      exact ih (List.rel_append h (List.forall₂_same.mpr (fun x _ => hrefl x)))

theorem calculateFormula_congr {data1 data2 : List DataRow}
    (h : List.Forall₂
      (fun a b => a.name = b.name ∧ a.type = b.type ∧ a.value = b.value) data1 data2)
    (f : String) (tables : Option (List StateTable)) :
    calculateFormula f data1 tables = calculateFormula f data2 tables := by
  unfold calculateFormula formulaMap buildMap sortByNameLenDesc
  rw [buildMap_forall₂ (fun a b hab => hab)
    (forall₂_insertionSort (fun a b hab => hab.1)
      (poolOf_forall₂ (fun a => ⟨rfl, rfl, rfl⟩) h tables)) []]

theorem filter_orderedInsert_sorted {P : DataRow → Bool} {a : DataRow} :
    ∀ {m : List DataRow}, List.Sorted lenGE m →
      (List.orderedInsert lenGE a m).filter P =
        if P a then List.orderedInsert lenGE a (m.filter P) else m.filter P := by
  intro m
  induction m with
  | nil =>
    intro _
    simp only [List.orderedInsert, List.filter_nil]
    cases hp : P a <;> simp [List.filter, hp]
  | cons x xs ih =>
    intro hs
    have hxs : List.Sorted lenGE xs := hs.of_cons
    have hall : ∀ y ∈ xs, lenGE x y := List.rel_of_sorted_cons hs
    simp only [List.orderedInsert]
    by_cases hc : lenGE a x
    · rw [if_pos hc]
      cases hp : P a with
      | true =>
        simp only [List.filter, hp]
        cases hx : P x with
        | true =>
          simp only [List.orderedInsert, if_pos hc]
          simp [List.filter, hx]
        | false =>
          have : List.orderedInsert lenGE a (xs.filter P) = a :: xs.filter P := by
            cases hfx : xs.filter P with
            | nil => rfl
            | cons y ys =>
              have hy : y ∈ xs := (List.mem_filter.mp (hfx ▸ List.mem_cons_self y ys)).1
              have : lenGE a y := le_trans (hall y hy) hc
              simp [List.orderedInsert, this]
          rw [this]
          simp [List.filter, hx]
      | false =>
        simp [List.filter, hp]
    · rw [if_neg hc]
      cases hx : P x with
      | true =>
        simp only [List.filter, hx, ih hxs]
        cases hp : P a with
        | true =>
          simp only [if_pos rfl]
          simp [List.orderedInsert, if_neg hc, List.filter, hx]
        | false => simp
      | false =>
        simp only [List.filter, hx, ih hxs]

theorem filter_insertionSort (P : DataRow → Bool) (l : List DataRow) :
    List.insertionSort lenGE (l.filter P) = (List.insertionSort lenGE l).filter P := by
  induction l with
  | nil => rfl
  | cons a l ih =>
    simp only [List.filter, List.insertionSort]
    cases hp : P a with
    | true =>
      simp only [List.insertionSort, ih]
      rw [filter_orderedInsert_sorted (List.sorted_insertionSort lenGE l), if_pos hp]
    | false =>
      simp only [ih]
      rw [filter_orderedInsert_sorted (List.sorted_insertionSort lenGE l), if_neg (by simp [hp])]

theorem buildMap_drop_unnamed :
    ∀ (l : List DataRow) (acc : List (String × JSNum)),
      (l.filter (fun r => r.name != "")).foldl buildMapStep acc = l.foldl buildMapStep acc := by
  intro l
  induction l with
  | nil => intro acc; rfl
  | cons r l ih =>
    intro acc
    cases hr : r.name == "" with
    | true =>
      have hstep : buildMapStep acc r = acc := by unfold buildMapStep; rw [if_pos hr]
      simp only [List.filter, bne, hr, Bool.not_true, List.foldl_cons, hstep]
      exact ih acc
    | false =>
      simp only [List.filter, bne, hr, Bool.not_false, List.foldl_cons]
      exact ih _

/-- C3: calculateFormula never throws (it is a total function here, with
the evaluation failure modelled as Option) and returns 0 on every failure
condition: (1) for the formula "unknownVar + 1" against any pool in which
no (non-empty) row name occurs in the formula text, it returns 0 via the
unknown-variable check; (2) whenever the post-substitution expression
fails the character validation it returns 0; (3) whenever the arithmetic
evaluation itself throws (e.g. unbalanced parentheses) the failure is
caught and 0 is returned. -/
theorem C3_failure_returns_zero :
    (∀ (data : List DataRow) (tables : Option (List StateTable)),
      (∀ r ∈ poolOf data tables, r.name = "" ∨ containsSub "unknownVar + 1" r.name = false) →
      calculateFormula "unknownVar + 1" data tables = .fin ⟨0, 1⟩) ∧
    (∀ (f : String) (data : List DataRow) (tables : Option (List StateTable)),
      validExpr (substitutedExpression f data tables) = false →
      calculateFormula f data tables = .fin ⟨0, 1⟩) ∧
    (∀ (f : String) (data : List DataRow) (tables : Option (List StateTable)),
      runExpr (substitutedExpression f data tables) = none →
      calculateFormula f data tables = .fin ⟨0, 1⟩) := by
  refine ⟨?_, ?_, ?_⟩
  · intro data tables h
    have htrim : jsTrim "unknownVar + 1" = "unknownVar + 1" := by decide
    unfold calculateFormula
    rw [htrim]
    have hunres : unresolvedIn "unknownVar + 1" (formulaMap data tables) = [] := by
      apply List.filter_eq_nil_iff.mpr
      intro p hp
      obtain ⟨r, hr, hrn, _, hne⟩ := buildMap_sources hp
      rcases h r (mem_sortByNameLenDesc.mp hr) with h1 | h1
      · exact absurd (hrn ▸ h1) hne
      · simp [← hrn, h1]
    unfold calcFromMap
    rw [hunres]
    rw [if_pos (by decide)]
  · intro f data tables hvalid
    unfold calculateFormula calcFromMap
    by_cases h1 : ((unresolvedIn (jsTrim f) (formulaMap data tables)).isEmpty &&
        hasAlpha (jsTrim f)) = true
    · rw [if_pos h1]
    · rw [if_neg h1]
      rw [if_pos (show (!(validExpr (substituteAll (jsTrim f)
          (unresolvedIn (jsTrim f) (formulaMap data tables))))) = true by
        rw [show substituteAll (jsTrim f)
          (unresolvedIn (jsTrim f) (formulaMap data tables)) =
          substitutedExpression f data tables from rfl, hvalid]; rfl)]
  · intro f data tables hrun
    unfold calculateFormula calcFromMap
    by_cases h1 : ((unresolvedIn (jsTrim f) (formulaMap data tables)).isEmpty &&
        hasAlpha (jsTrim f)) = true
    · rw [if_pos h1]
    · rw [if_neg h1]
      by_cases h2 : (!(validExpr (substituteAll (jsTrim f)
          (unresolvedIn (jsTrim f) (formulaMap data tables))))) = true
      · rw [if_pos h2]
      · rw [if_neg h2]
        rw [show substituteAll (jsTrim f)
          (unresolvedIn (jsTrim f) (formulaMap data tables)) =
          substitutedExpression f data tables from rfl, hrun]

theorem C3_failure_returns_zero_witness :
    calculateFormula "unknownVar + 1" [] none = .fin ⟨0, 1⟩ ∧
    calculateFormula "1 + ;" [] none = .fin ⟨0, 1⟩ ∧
    calculateFormula "((1+2" [] none = .fin ⟨0, 1⟩ :=
  ⟨C3_failure_returns_zero.1 [] none (by simp [poolOf]),
   C3_failure_returns_zero.2.1 "1 + ;" [] none (by decide),
   C3_failure_returns_zero.2.2 "((1+2" [] none (by decide)⟩

/-- C4 counterexample: the claim says a non-finite evaluated value is
replaced by 0, but the code only checks `typeof result === 'number'`,
which Infinity satisfies: the formula "1/0" passes resolution and
validation, evaluates to Infinity, and calculateFormula returns Infinity,
not 0. -/
theorem C4_counterexample :
    calculateFormula "1/0" [] none = JSNum.inf ∧ JSNum.inf ≠ JSNum.fin ⟨0, 1⟩ := by
  constructor
  · decide
  · decide

/-- C4 (amended): when the substituted expression validates and evaluates
to a number by the runtime's own type test, that number is returned
as-is, including non-finite values such as Infinity from division by
zero; 0 is substituted only for non-number evaluation outcomes. -/
theorem C4_number_passthrough (f : String) (data : List DataRow)
    (tables : Option (List StateTable)) (v : JSNum)
    (halpha : ((unresolvedIn (jsTrim f) (formulaMap data tables)).isEmpty &&
      hasAlpha (jsTrim f)) = false)
    (hvalid : validExpr (substitutedExpression f data tables) = true)
    (hrun : runExpr (substitutedExpression f data tables) = some (EvalOut.val v)) :
    calculateFormula f data tables = v := by
  unfold calculateFormula calcFromMap
  rw [if_neg (show ¬(((unresolvedIn (jsTrim f) (formulaMap data tables)).isEmpty &&
    hasAlpha (jsTrim f)) = true) by rw [halpha]; exact Bool.false_ne_true)]
  rw [if_neg (show ¬((!(validExpr (substituteAll (jsTrim f)
      (unresolvedIn (jsTrim f) (formulaMap data tables))))) = true) by
    rw [show substituteAll (jsTrim f)
      (unresolvedIn (jsTrim f) (formulaMap data tables)) =
      substitutedExpression f data tables from rfl, hvalid]
    exact Bool.false_ne_true)]
  rw [show substituteAll (jsTrim f)
    (unresolvedIn (jsTrim f) (formulaMap data tables)) =
    substitutedExpression f data tables from rfl, hrun]

theorem C4_number_passthrough_witness : calculateFormula "1/0" [] none = JSNum.inf :=
  C4_number_passthrough "1/0" [] none JSNum.inf (by decide) (by decide) (by decide)

/-- C6 counterexample: the claim quantifies over every state of the
container, but DELETE_TABLE is only handled in the idle state.  In this
reachable run (create a table from the dialog, then reopen the dialog)
the DELETE_TABLE event arrives in dialogOpen, is ignored, and the table
with the targeted id is still present afterwards. -/
theorem C6_counterexample :
    ∃ t ∈ (List.foldl step initialMachine
      [Event.openDialog none, Event.saveStateEv [] 1 1 1, Event.openDialog none,
       Event.deleteTable "table-1"]).stateTables, t.id = "table-1" := by decide

/-- C6 (amended): in the idle state (the only state in which the machine
handles DELETE_TABLE), processing DELETE_TABLE(id) leaves no table with
that id and no transition whose fromId or toId equals that id. -/
theorem C6_delete_table_idle (m : Machine) (tid : String) (hm : m.mstate = MState.idle) :
    (∀ t ∈ (step m (Event.deleteTable tid)).stateTables, t.id ≠ tid) ∧
    (∀ tr ∈ (step m (Event.deleteTable tid)).stateTransitions,
      tr.fromId ≠ tid ∧ tr.toId ≠ tid) := by
  obtain ⟨ms, tb, tr, sel, dlg⟩ := m
  simp only [Machine.mstate] at hm
  subst hm
  constructor
  · intro t ht
    have := (List.mem_filter.mp ht).2
    simpa using this
  · intro t ht
    have := (List.mem_filter.mp ht).2
    simp only [Bool.and_eq_true, bne_iff_ne] at this
    exact this

theorem C6_delete_table_idle_witness :
    (⟨MState.idle, [⟨"T", (⟨0, 1⟩, ⟨0, 1⟩), []⟩], [⟨"e", "T", "T", none⟩], none, false⟩ :
      Machine).mstate = MState.idle ∧
    ((∀ t ∈ (step ⟨MState.idle, [⟨"T", (⟨0, 1⟩, ⟨0, 1⟩), []⟩], [⟨"e", "T", "T", none⟩],
        none, false⟩ (Event.deleteTable "T")).stateTables, t.id ≠ "T") ∧
     (∀ tr ∈ (step ⟨MState.idle, [⟨"T", (⟨0, 1⟩, ⟨0, 1⟩), []⟩], [⟨"e", "T", "T", none⟩],
        none, false⟩ (Event.deleteTable "T")).stateTransitions,
        tr.fromId ≠ "T" ∧ tr.toId ≠ "T")) :=
  ⟨rfl, C6_delete_table_idle _ "T" rfl⟩

/-- C7: recalculate returns a sequence of the same length and order in
which exactly the rows of type formula with a non-empty formula get their
result recomputed via the evaluator; every other row, and every field
other than result of the recomputed rows, is returned unchanged.  (The
embedding is purely functional, so the input sequence itself cannot be
mutated.) -/
theorem C7_recalculate_frame (rows : List DataRow) (tables : List StateTable) :
    (recalculateFormulas rows tables).length = rows.length ∧
    ∀ i (h : i < rows.length),
      (recalculateFormulas rows tables)[i]? =
        some (if ((rows.get ⟨i, h⟩).type == RowType.formula &&
            formulaTruthy (rows.get ⟨i, h⟩).formula) = true then
          { rows.get ⟨i, h⟩ with result := some (calculateFormula
              ((rows.get ⟨i, h⟩).formula.getD "") rows (some tables)) }
        else rows.get ⟨i, h⟩) := by
  constructor
  · unfold recalculateFormulas
    exact List.length_map _ _
  · intro i h
    unfold recalculateFormulas
    rw [List.getElem?_map]
    rw [List.getElem?_eq_getElem h]
    rfl

theorem C7_recalculate_frame_witness :
    (recalculateFormulas [⟨1, "n", Value.num ⟨7, 1⟩, RowType.number, none, none, none, none⟩]
      []).length = 1 ∧
    (recalculateFormulas [⟨1, "n", Value.num ⟨7, 1⟩, RowType.number, none, none, none, none⟩]
      [])[0]? = some ⟨1, "n", Value.num ⟨7, 1⟩, RowType.number, none, none, none, none⟩ := by
  have h := C7_recalculate_frame
    [⟨1, "n", Value.num ⟨7, 1⟩, RowType.number, none, none, none, none⟩] []
  refine ⟨h.1, ?_⟩
  have h2 := h.2 0 (by decide)
  rw [h2]
  decide

/-- C8: recalculate is idempotent: a second recalculation over the output
of the first (with the same table collection) is the identity, because
the evaluator reads only name, type and value of candidate rows and never
a previously computed result. -/
theorem C8_recalculate_idempotent (rows : List DataRow) (tables : List StateTable) :
    recalculateFormulas (recalculateFormulas rows tables) tables =
      recalculateFormulas rows tables := by
  unfold recalculateFormulas
  rw [List.map_map]
  apply List.map_congr_left
  intro x hx
  simp only [Function.comp_apply]
  have hcongr : ∀ g : String,
      calculateFormula g (List.map (fun row =>
        if (row.type == RowType.formula && formulaTruthy row.formula) = true then
          { row with result := some (calculateFormula (row.formula.getD "") rows (some tables)) }
        else row) rows) (some tables) = calculateFormula g rows (some tables) := by
    intro g
    apply calculateFormula_congr
    rw [List.forall₂_map_left_iff]
    apply List.forall₂_same.mpr
    intro r _
    split
    · exact ⟨rfl, rfl, rfl⟩
    · exact ⟨rfl, rfl, rfl⟩
  by_cases hcond : (x.type == RowType.formula && formulaTruthy x.formula) = true
  · simp only [hcond, eq_self_iff_true, if_true, hcongr]
  · have hcf : (x.type == RowType.formula && formulaTruthy x.formula) = false := by
      simpa using hcond
    simp only [hcf, Bool.false_eq_true, if_false]

theorem poolOf_filter_aux (P : DataRow → Bool) :
    ∀ (ts : List StateTable) (acc : List DataRow),
      List.foldl (fun a t => a ++ t.data) (acc.filter P)
        (ts.map (fun t => { t with data := t.data.filter P })) =
      (List.foldl (fun a t => a ++ t.data) acc ts).filter P := by
  intro ts
  induction ts with
  | nil => intro acc; rfl
  | cons t ts ih =>
    intro acc
    simp only [List.map_cons, List.foldl_cons]
    rw [show (acc.filter P ++ ({ t with data := t.data.filter P } : StateTable).data) =
      (acc ++ t.data).filter P from by rw [List.filter_append]]
    exact ih _

/-- C10: rows whose name is the empty string never participate in
variable resolution: calculateFormula returns the same value when all
rows with an empty name are removed from the local rows and from every
supplied table. -/
theorem C10_empty_names_ignored (f : String) (data : List DataRow)
    (tables : Option (List StateTable)) :
    calculateFormula f (data.filter (fun r => r.name != ""))
      (tables.map (fun ts => ts.map
        (fun t => { t with data := t.data.filter (fun r => r.name != "") }))) =
      calculateFormula f data tables := by
  unfold calculateFormula formulaMap
  have hpool : poolOf (data.filter (fun r => r.name != ""))
      (tables.map (fun ts => ts.map
        (fun t => { t with data := t.data.filter (fun r => r.name != "") }))) =
      (poolOf data tables).filter (fun r => r.name != "") := by
    cases tables with
    | none => rfl
    | some ts => exact poolOf_filter_aux _ ts data
  rw [hpool]
  unfold sortByNameLenDesc
  rw [filter_insertionSort]
  show calcFromMap (jsTrim f)
    (buildMap ((List.insertionSort lenGE (poolOf data tables)).filter (fun r => r.name != ""))) =
    calcFromMap (jsTrim f) (buildMap (List.insertionSort lenGE (poolOf data tables)))
  unfold buildMap
  rw [buildMap_drop_unnamed]

theorem buildMap_rate_tax :
    ∀ (l : List DataRow) (acc : List (String × JSNum)),
      (∀ r ∈ l, (r.name = "rate" ∧ r.value = Value.num ⟨5, 1⟩ ∧ r.type = RowType.number) ∨
        (r.name = "tax_rate" ∧ r.value = Value.num ⟨10, 1⟩ ∧ r.type = RowType.number)) →
      (acc = [] ∨ acc = [("rate", JSNum.fin ⟨5, 1⟩)] ∨ acc = [("tax_rate", JSNum.fin ⟨10, 1⟩)] ∨
        acc = [("rate", JSNum.fin ⟨5, 1⟩), ("tax_rate", JSNum.fin ⟨10, 1⟩)] ∨
        acc = [("tax_rate", JSNum.fin ⟨10, 1⟩), ("rate", JSNum.fin ⟨5, 1⟩)]) →
      (l.foldl buildMapStep acc = [] ∨
        l.foldl buildMapStep acc = [("rate", JSNum.fin ⟨5, 1⟩)] ∨
        l.foldl buildMapStep acc = [("tax_rate", JSNum.fin ⟨10, 1⟩)] ∨
        l.foldl buildMapStep acc = [("rate", JSNum.fin ⟨5, 1⟩), ("tax_rate", JSNum.fin ⟨10, 1⟩)] ∨
        l.foldl buildMapStep acc =
          [("tax_rate", JSNum.fin ⟨10, 1⟩), ("rate", JSNum.fin ⟨5, 1⟩)]) := by
  intro l
  induction l with
  | nil => intro acc _ hacc; exact hacc
  | cons r l ih =>
    intro acc h hacc
    rw [List.foldl_cons]
    apply ih (buildMapStep acc r) (fun x hx => h x (List.mem_cons_of_mem _ hx))
    rcases h r (List.mem_cons_self r l) with ⟨hn, hv, ht⟩ | ⟨hn, hv, ht⟩
    · have hco : rowCoerce r = JSNum.fin ⟨5, 1⟩ := by
        unfold rowCoerce
        rw [ht, hv]
        rfl
      have hstep : buildMapStep acc r =
          if hasKey acc "rate" then acc else acc ++ [("rate", JSNum.fin ⟨5, 1⟩)] := by
        unfold buildMapStep
        rw [hn, hco]
        rw [if_neg (show ¬(("rate" == "") = true) by decide)]
      rcases hacc with h5 | h5 | h5 | h5 | h5 <;> (subst h5; rw [hstep]; decide)
    · have hco : rowCoerce r = JSNum.fin ⟨10, 1⟩ := by
        unfold rowCoerce
        rw [ht, hv]
        rfl
      have hstep : buildMapStep acc r =
          if hasKey acc "tax_rate" then acc else acc ++ [("tax_rate", JSNum.fin ⟨10, 1⟩)] := by
        unfold buildMapStep
        rw [hn, hco]
        rw [if_neg (show ¬(("tax_rate" == "") = true) by decide)]
      rcases hacc with h5 | h5 | h5 | h5 | h5 <;> (subst h5; rw [hstep]; decide)

/-- C1 counterexample: the claim quantifies over every pool containing
the rate/tax_rate rows, but other rows can interfere.  Adding a row
named "1" with value 99 (its name occurs in "tax_rate + 1" and, after
"tax_rate" is replaced by 10, the boundary regex matches the trailing
literal 1) makes the call return 109, not 11. -/
theorem C1_counterexample :
    calculateFormula "tax_rate + 1"
      [⟨1, "rate", Value.num ⟨5, 1⟩, RowType.number, none, none, none, none⟩,
       ⟨2, "tax_rate", Value.num ⟨10, 1⟩, RowType.number, none, none, none, none⟩,
       ⟨3, "1", Value.num ⟨99, 1⟩, RowType.number, none, none, none, none⟩] none =
      JSNum.fin ⟨109, 1⟩ ∧
    JSNum.fin (⟨109, 1⟩ : JSRat) ≠ JSNum.fin ⟨11, 1⟩ := by
  constructor
  · decide
  · decide

/-- C1 (amended): for every pool all of whose rows are named "rate" with
numeric value 5 or "tax_rate" with numeric value 10 (type number), with
at least one "tax_rate" row present, calculateFormula("tax_rate + 1")
returns 11: the longer name is resolved first by the length-descending
sort, and the boundary-aware regex keeps the shorter name "rate" from
corrupting its occurrence inside "tax_rate". -/
theorem C1_longest_name_precedence (data : List DataRow) (tables : Option (List StateTable))
    (hpool : ∀ r ∈ poolOf data tables,
      (r.name = "rate" ∧ r.value = Value.num ⟨5, 1⟩ ∧ r.type = RowType.number) ∨
      (r.name = "tax_rate" ∧ r.value = Value.num ⟨10, 1⟩ ∧ r.type = RowType.number))
    (htax : ∃ r ∈ poolOf data tables, r.name = "tax_rate") :
    calculateFormula "tax_rate + 1" data tables = JSNum.fin ⟨11, 1⟩ := by
  unfold calculateFormula formulaMap buildMap
  have hsorted : ∀ r ∈ sortByNameLenDesc (poolOf data tables),
      (r.name = "rate" ∧ r.value = Value.num ⟨5, 1⟩ ∧ r.type = RowType.number) ∨
      (r.name = "tax_rate" ∧ r.value = Value.num ⟨10, 1⟩ ∧ r.type = RowType.number) :=
    fun r hr => hpool r (mem_sortByNameLenDesc.mp hr)
  have hcases := buildMap_rate_tax (sortByNameLenDesc (poolOf data tables)) [] hsorted
    (Or.inl rfl)
  have hmem : ("tax_rate", JSNum.fin ⟨10, 1⟩) ∈
      (sortByNameLenDesc (poolOf data tables)).foldl buildMapStep [] := by
    apply buildMap_first_wins
    · obtain ⟨r, hr, hrn⟩ := htax
      exact ⟨r, mem_sortByNameLenDesc.mpr hr, hrn⟩
    · intro r hr hrn
      rcases hsorted r hr with ⟨hn, hv, ht⟩ | ⟨hn, hv, ht⟩
      · rw [hn] at hrn
        exact absurd hrn (by decide)
      · unfold rowCoerce
        rw [ht, hv]
        rfl
    · decide
    · exact Or.inl rfl
  rcases hcases with hm | hm | hm | hm | hm
  · rw [hm] at hmem
    exact absurd hmem (by decide)
  · rw [hm] at hmem
    exact absurd hmem (by decide)
  · rw [hm]
    decide
  · rw [hm]
    decide
  · rw [hm]
    decide

theorem C1_longest_name_precedence_witness :
    calculateFormula "tax_rate + 1"
      [⟨1, "rate", Value.num ⟨5, 1⟩, RowType.number, none, none, none, none⟩,
       ⟨2, "tax_rate", Value.num ⟨10, 1⟩, RowType.number, none, none, none, none⟩] none =
      JSNum.fin ⟨11, 1⟩ :=
  C1_longest_name_precedence
    [⟨1, "rate", Value.num ⟨5, 1⟩, RowType.number, none, none, none, none⟩,
     ⟨2, "tax_rate", Value.num ⟨10, 1⟩, RowType.number, none, none, none, none⟩] none
    (by decide) (by decide)

theorem isIdentChar_of_isDigit {c : Char} (h : c.isDigit = true) : isIdentChar c = true := by
  unfold isIdentChar
  have : c.isAlphanum = true := by
    unfold Char.isAlphanum
    rw [h]
    simp
  rw [this]
  simp

theorem validChar_of_isDigit {c : Char} (h : c.isDigit = true) : validChar c = true := by
  unfold validChar
  rw [h]
  simp

theorem numToString_natCast (n : ℕ) :
    numToString (JSNum.fin ⟨(n : Int), 1⟩) = natStrS n := by
  have h1 : decide ((n : Int) < 0) = false := decide_eq_false (by omega)
  have h2 : decide ((1 : Int) < 0) = false := by decide
  unfold numToString ratRender
  simp only [h1, h2, bne_self_eq_false, Int.natAbs_ofNat, Int.natAbs_one,
    Nat.gcd_one_right, Nat.div_one]
  simp only [if_true, Bool.false_and, Bool.false_eq_true, if_false]
  rfl

theorem replaceVarL_no_start (n0 : Char) (ns val hay : List Char)
    (h : (isPrefixL (n0 :: ns) hay && lookOk (hay.drop (n0 :: ns).length)) = false) :
    replaceVarL (n0 :: ns) val hay = replAfter n0 ns val hay := by
  show (if (isPrefixL (n0 :: ns) hay && lookOk (List.drop (n0 :: ns).length hay)) = true then
      val ++ replAfter n0 ns val (List.drop (n0 :: ns).length hay)
    else replAfter n0 ns val hay) = replAfter n0 ns val hay
  rw [if_neg (by rw [h]; exact Bool.false_ne_true)]

/-- C2 counterexample: the claim quantifies over every formula built from
known row names, operators and decimal literals, but a digit-named row
breaks it: with rows A=2, B=3 and a row named "2" (value 9), the formula
"A + 2" first substitutes A, producing "2 + 2", and the later
substitution of the name "2" then captures both digits, yielding 18 -
neither the literal reading 4 nor the name reading 11. -/
theorem C2_counterexample :
    calculateFormula "A + 2"
      [⟨1, "A", Value.num ⟨2, 1⟩, RowType.number, none, none, none, none⟩,
       ⟨2, "B", Value.num ⟨3, 1⟩, RowType.number, none, none, none, none⟩,
       ⟨3, "2", Value.num ⟨9, 1⟩, RowType.number, none, none, none, none⟩] none =
      JSNum.fin ⟨18, 1⟩ ∧
    JSNum.fin (⟨18, 1⟩ : JSRat) ≠ JSNum.fin ⟨4, 1⟩ ∧
    JSNum.fin (⟨18, 1⟩ : JSRat) ≠ JSNum.fin ⟨11, 1⟩ := by
  refine ⟨?_, ?_, ?_⟩ <;> decide

/-- C2 (amended): over pools free of interfering names - here the
two-row pool {A, B} - the evaluator computes the mathematically correct
value under standard operator precedence: for all natural values a and b
below 10^15 (inside the regime where the runtime renders numbers as
plain decimal digits and holds the inputs and the sum exactly; at
magnitudes of 1e21 and above the runtime emits exponent text, the
substituted expression fails validation, and 0 is returned),
"A + B * 2" evaluates to a + b * 2 (multiplication binds tighter), and
in particular a=2, b=3 gives 8. -/
theorem C2_standard_precedence :
    (∀ a b : ℕ, a < 10 ^ 15 → b < 10 ^ 15 →
      calculateFormula "A + B * 2"
        [⟨1, "A", Value.num ⟨(a : Int), 1⟩, RowType.number, none, none, none, none⟩,
         ⟨2, "B", Value.num ⟨(b : Int), 1⟩, RowType.number, none, none, none, none⟩] none =
        JSNum.fin ⟨(a : Int) + (b : Int) * 2, 1⟩) ∧
    calculateFormula "A + B * 2"
      [⟨1, "A", Value.num ⟨2, 1⟩, RowType.number, none, none, none, none⟩,
       ⟨2, "B", Value.num ⟨3, 1⟩, RowType.number, none, none, none, none⟩] none =
      JSNum.fin ⟨8, 1⟩ := by
  constructor
  · intro a b _ _
    unfold calculateFormula formulaMap
    have hmap : buildMap (sortByNameLenDesc (poolOf
        [⟨1, "A", Value.num ⟨(a : Int), 1⟩, RowType.number, none, none, none, none⟩,
         ⟨2, "B", Value.num ⟨(b : Int), 1⟩, RowType.number, none, none, none, none⟩] none)) =
        [("A", JSNum.fin ⟨(a : Int), 1⟩), ("B", JSNum.fin ⟨(b : Int), 1⟩)] := rfl
    rw [hmap]
    have htrim : jsTrim "A + B * 2" = "A + B * 2" := by decide
    rw [htrim]
    have hunres : unresolvedIn "A + B * 2"
        [("A", JSNum.fin ⟨(a : Int), 1⟩), ("B", JSNum.fin ⟨(b : Int), 1⟩)] =
        [("A", JSNum.fin ⟨(a : Int), 1⟩), ("B", JSNum.fin ⟨(b : Int), 1⟩)] := rfl
    unfold calcFromMap
    rw [hunres]
    rw [if_neg (show ¬(([("A", JSNum.fin ⟨(a : Int), 1⟩),
      ("B", JSNum.fin ⟨(b : Int), 1⟩)].isEmpty && hasAlpha "A + B * 2") = true) from by
        simp [hasAlpha])]
    have hsubst : substituteAll "A + B * 2"
        [("A", JSNum.fin ⟨(a : Int), 1⟩), ("B", JSNum.fin ⟨(b : Int), 1⟩)] =
        ⟨natPrint a ++ (' ' :: '+' :: ' ' ::
          (natPrint b ++ (' ' :: '*' :: ' ' :: '2' :: [])))⟩ := by
      unfold substituteAll
      simp only [List.foldl_cons, List.foldl_nil]
      rw [numToString_natCast, numToString_natCast]
      have hsubA : replaceVarS "A" (natStrS a) "A + B * 2" =
          ⟨natPrint a ++ (' ' :: '+' :: ' ' :: 'B' :: ' ' :: '*' :: ' ' :: '2' :: [])⟩ := rfl
      rw [hsubA]
      show String.mk (replaceVarL ('B' :: []) (natPrint b)
        (natPrint a ++ (' ' :: '+' :: ' ' :: 'B' :: ' ' :: '*' :: ' ' :: '2' :: []))) = _
      obtain ⟨c, t, hct⟩ := List.exists_cons_of_ne_nil (natPrint_ne_nil a)
      have hcd : c.isDigit = true := natPrint_all_digits a c (hct ▸ List.mem_cons_self c t)
      have hBc : ('B' == c) = false := by
        cases hbc : 'B' == c
        · rfl
        · rw [beq_iff_eq] at hbc
          rw [← hbc] at hcd
          exact absurd hcd (by decide)
      have hpre : isPrefixL ('B' :: [])
          (natPrint a ++ (' ' :: '+' :: ' ' :: 'B' :: ' ' :: '*' :: ' ' :: '2' :: [])) =
          false := by
        rw [hct, List.cons_append]
        simp [isPrefixL, hBc]
      rw [replaceVarL_no_start 'B' [] (natPrint b)
        (natPrint a ++ (' ' :: '+' :: ' ' :: 'B' :: ' ' :: '*' :: ' ' :: '2' :: []))
        (by rw [hpre]; rfl)]
      rw [replAfter_ident_append (natPrint a) _
        (fun x hx => isIdentChar_of_isDigit (natPrint_all_digits a x hx))]
      congr 1
    rw [hsubst]
    have hvalid : validExpr ⟨natPrint a ++ (' ' :: '+' :: ' ' ::
        (natPrint b ++ (' ' :: '*' :: ' ' :: '2' :: [])))⟩ = true := by
      unfold validExpr
      show (!(natPrint a ++ (' ' :: '+' :: ' ' ::
        (natPrint b ++ (' ' :: '*' :: ' ' :: '2' :: [])))).isEmpty &&
        (natPrint a ++ (' ' :: '+' :: ' ' ::
        (natPrint b ++ (' ' :: '*' :: ' ' :: '2' :: [])))).all validChar) = true
      obtain ⟨c, t, hct⟩ := List.exists_cons_of_ne_nil (natPrint_ne_nil a)
      have hvc : ∀ x ∈ natPrint a, validChar x = true :=
        fun x hx => validChar_of_isDigit (natPrint_all_digits a x hx)
      have hc : validChar c = true := hvc c (hct ▸ List.mem_cons_self c t)
      have ht : t.all validChar = true := List.all_eq_true.mpr
        (fun x hx => hvc x (hct ▸ List.mem_cons_of_mem c hx))
      have hb : (natPrint b).all validChar = true := List.all_eq_true.mpr
        (fun x hx => validChar_of_isDigit (natPrint_all_digits b x hx))
      rw [hct, List.cons_append]
      simp only [List.isEmpty_cons, Bool.not_false, Bool.true_and, List.all_cons,
        List.all_append, hc, ht, hb]
      decide
    rw [if_neg (show ¬((!(validExpr ⟨natPrint a ++ (' ' :: '+' :: ' ' ::
        (natPrint b ++ (' ' :: '*' :: ' ' :: '2' :: [])))⟩)) = true) from by
      rw [hvalid]; decide)]
    have htok : tokenize (natPrint a ++ (' ' :: '+' :: ' ' ::
        (natPrint b ++ (' ' :: '*' :: ' ' :: '2' :: [])))) =
        some [Tok.num ⟨(a : Int), 1⟩, Tok.plus, Tok.num ⟨(b : Int), 1⟩, Tok.star,
          Tok.num ⟨2, 1⟩] := by
      rw [tokenize_natPrint a _ (by rfl)]
      rw [tokenize_cons_ws _ (by decide)]
      rw [tokenize_cons_plus _ (by rfl)]
      rw [tokenize_cons_ws _ (by decide)]
      rw [tokenize_natPrint b _ (by rfl)]
      rw [tokenize_cons_ws _ (by decide)]
      rw [tokenize_cons_star]
      rw [show tokenize (' ' :: '2' :: []) = some [Tok.num ⟨2, 1⟩] from by decide]
      rfl
    have hrun : runExpr ⟨natPrint a ++ (' ' :: '+' :: ' ' ::
        (natPrint b ++ (' ' :: '*' :: ' ' :: '2' :: [])))⟩ =
        some (EvalOut.val (JSNum.fin
          ⟨(a : Int) * (1 * 1) + (b : Int) * 2 * 1, 1 * (1 * 1)⟩)) := by
      unfold runExpr
      rw [string_toList_mk, htok]
      rfl
    rw [hrun]
    have hfin : (⟨(a : Int) * (1 * 1) + (b : Int) * 2 * 1, 1 * (1 * 1)⟩ : JSRat) =
        ⟨(a : Int) + (b : Int) * 2, 1⟩ := by
      congr 1 <;> ring
    rw [hfin]
  · decide

theorem C2_standard_precedence_witness :
    2 < 10 ^ 15 ∧ 3 < 10 ^ 15 ∧
    calculateFormula "A + B * 2"
      [⟨1, "A", Value.num ⟨((2 : ℕ) : Int), 1⟩, RowType.number, none, none, none, none⟩,
       ⟨2, "B", Value.num ⟨((3 : ℕ) : Int), 1⟩, RowType.number, none, none, none, none⟩]
      none = JSNum.fin ⟨((2 : ℕ) : Int) + ((3 : ℕ) : Int) * 2, 1⟩ :=
  ⟨by decide, by decide,
    C2_standard_precedence.1 2 3 (by decide) (by decide)⟩

theorem mem_foldl_append_tables (r : DataRow) :
    ∀ (ts : List StateTable) (acc : List DataRow),
      (r ∈ ts.foldl (fun a t => a ++ t.data) acc ↔ r ∈ acc ∨ ∃ t ∈ ts, r ∈ t.data) := by
  intro ts
  induction ts with
  | nil =>
    intro acc
    simp
  | cons t ts ih =>
    intro acc
    rw [List.foldl_cons, ih]
    constructor
    · rintro (h | h)
      · rcases List.mem_append.mp h with h1 | h1
        · exact Or.inl h1
        · exact Or.inr ⟨t, List.mem_cons_self t ts, h1⟩
      · obtain ⟨u, hu, hru⟩ := h
        exact Or.inr ⟨u, List.mem_cons_of_mem _ hu, hru⟩
    · rintro (h | ⟨u, hu, hru⟩)
      · exact Or.inl (List.mem_append.mpr (Or.inl h))
      · rcases List.mem_cons.mp hu with he | he
        · exact Or.inl (List.mem_append.mpr (Or.inr (he ▸ hru)))
        · exact Or.inr ⟨u, he, hru⟩

theorem mem_poolOf_some {r : DataRow} {data : List DataRow} {ts : List StateTable} :
    r ∈ poolOf data (some ts) ↔ r ∈ data ∨ ∃ t ∈ ts, r ∈ t.data := by
  unfold poolOf
  exact mem_foldl_append_tables r ts data

theorem calculateFormula_x_double (tables : List StateTable)
    (hpool : ∀ tbl ∈ tables, ∀ r ∈ tbl.data,
      (r.name = "x" ∧ r.value = Value.num ⟨10, 1⟩ ∧ r.type = RowType.number) ∨
      containsSub "x*2" r.name = false)
    (hx : ∃ tbl ∈ tables, ∃ r ∈ tbl.data, r.name = "x") :
    calculateFormula "x*2"
      [⟨2, "y", Value.str "", RowType.formula, none, none, some "x*2", none⟩]
      (some tables) = JSNum.fin ⟨20, 1⟩ := by
  unfold calculateFormula formulaMap buildMap
  have htrim : jsTrim "x*2" = "x*2" := by decide
  rw [htrim]
  have hpool2 : ∀ r ∈ poolOf
      [⟨2, "y", Value.str "", RowType.formula, none, none, some "x*2", none⟩] (some tables),
      (r.name = "x" ∧ r.value = Value.num ⟨10, 1⟩ ∧ r.type = RowType.number) ∨
      containsSub "x*2" r.name = false := by
    intro r hr
    rcases mem_poolOf_some.mp hr with h1 | ⟨t, ht, hrt⟩
    · right
      simp only [List.mem_singleton] at h1
      subst h1
      decide
    · exact hpool t ht r hrt
  have hsorted : ∀ r ∈ sortByNameLenDesc (poolOf
      [⟨2, "y", Value.str "", RowType.formula, none, none, some "x*2", none⟩] (some tables)),
      (r.name = "x" ∧ r.value = Value.num ⟨10, 1⟩ ∧ r.type = RowType.number) ∨
      containsSub "x*2" r.name = false :=
    fun r hr => hpool2 r (mem_sortByNameLenDesc.mp hr)
  have hmem : ("x", JSNum.fin ⟨10, 1⟩) ∈
      (sortByNameLenDesc (poolOf
        [⟨2, "y", Value.str "", RowType.formula, none, none, some "x*2", none⟩]
        (some tables))).foldl buildMapStep [] := by
    apply buildMap_first_wins
    · obtain ⟨t, ht, r, hr, hrn⟩ := hx
      exact ⟨r, mem_sortByNameLenDesc.mpr (mem_poolOf_some.mpr (Or.inr ⟨t, ht, hr⟩)), hrn⟩
    · intro r hr hrn
      rcases hsorted r hr with ⟨hn, hv, ht2⟩ | hc
      · unfold rowCoerce
        rw [ht2, hv]
        rfl
      · rw [hrn] at hc
        exact absurd hc (by decide)
    · decide
    · exact Or.inl rfl
  have hdist : ((sortByNameLenDesc (poolOf
      [⟨2, "y", Value.str "", RowType.formula, none, none, some "x*2", none⟩]
      (some tables))).foldl buildMapStep []).Pairwise (fun p q => p.1 ≠ q.1) :=
    buildMap_keys_distinct _ [] List.Pairwise.nil
  have hothers : ∀ p ∈ (sortByNameLenDesc (poolOf
      [⟨2, "y", Value.str "", RowType.formula, none, none, some "x*2", none⟩]
      (some tables))).foldl buildMapStep [],
      p.1 ≠ "x" → containsSub "x*2" p.1 = false := by
    intro p hp hne
    have hp2 : p ∈ buildMap (sortByNameLenDesc (poolOf
        [⟨2, "y", Value.str "", RowType.formula, none, none, some "x*2", none⟩]
        (some tables))) := hp
    obtain ⟨r, hr, hrn, hrc, hrne⟩ := buildMap_sources hp2
    rcases hsorted r hr with ⟨hn, hv, ht2⟩ | hc
    · exact absurd (hrn ▸ hn) hne
    · rw [← hrn]
      exact hc
  have hunres := unresolvedIn_eq_singleton hmem hdist (by decide) hothers
  unfold calcFromMap
  rw [hunres]
  decide

/-- C5 counterexample: the claim as stated fails on two counts.  First,
the new table's id and the new transition's toId come from independent
clock readings: with readings 100/100/101 the transition's toId
("table-101") is not the id of any table in the result, in particular
not the new table's ("table-100").  Second, extra rows can corrupt the
formula: a row named "2" (value 9) in the source table makes the saved
row y evaluate to 90, not 20. -/
theorem C5_counterexample :
    ((step ⟨MState.dialogOpen,
        [⟨"A", (⟨0, 1⟩, ⟨0, 1⟩),
          [⟨1, "x", Value.num ⟨10, 1⟩, RowType.number, none, none, none, none⟩]⟩],
        [], some "A", true⟩
        (Event.saveStateEv
          [⟨2, "y", Value.str "", RowType.formula, none, none, some "x*2", none⟩]
          100 100 101)).stateTables.map StateTable.id = ["A", "table-100"] ∧
      (step ⟨MState.dialogOpen,
        [⟨"A", (⟨0, 1⟩, ⟨0, 1⟩),
          [⟨1, "x", Value.num ⟨10, 1⟩, RowType.number, none, none, none, none⟩]⟩],
        [], some "A", true⟩
        (Event.saveStateEv
          [⟨2, "y", Value.str "", RowType.formula, none, none, some "x*2", none⟩]
          100 100 101)).stateTransitions.map StateTransition.toId = ["table-101"] ∧
      "table-101" ∉ ["A", "table-100"]) ∧
    ((step ⟨MState.dialogOpen,
        [⟨"A", (⟨0, 1⟩, ⟨0, 1⟩),
          [⟨1, "x", Value.num ⟨10, 1⟩, RowType.number, none, none, none, none⟩,
           ⟨4, "2", Value.num ⟨9, 1⟩, RowType.number, none, none, none, none⟩]⟩],
        [], some "A", true⟩
        (Event.saveStateEv
          [⟨2, "y", Value.str "", RowType.formula, none, none, some "x*2", none⟩]
          100 100 100)).stateTables.map (fun t => t.data.map DataRow.result) =
        [[none, none], [some (JSNum.fin ⟨90, 1⟩)]] ∧
      JSNum.fin (⟨90, 1⟩ : JSRat) ≠ JSNum.fin ⟨20, 1⟩) := by
  refine ⟨⟨?_, ?_, ?_⟩, ?_, ?_⟩ <;> decide

/-- C5 (amended): in dialogOpen with selectedTableId naming a found table
A, saving the single row y with formula "x*2" - when the three clock
readings of the handler agree on the table/transition-target ids
(t1 = t3) and every row of every table is either the x row (value 10,
type number) or has a name not occurring in "x*2", with at least one x
row present - appends a new table at (A.x + 500, A.y) whose row y has
result 20, and appends a transition from the selected id to exactly the
new table's id. -/
theorem C5_save_creates_table (m : Machine) (aid : String) (A : StateTable) (t1 t2 t3 : Nat)
    (hst : m.mstate = MState.dialogOpen)
    (hsel : m.selectedTableId = some aid)
    (hfind : m.stateTables.find? (fun t => t.id == aid) = some A)
    (hclock : t1 = t3)
    (hpool : ∀ tbl ∈ m.stateTables, ∀ r ∈ tbl.data,
      (r.name = "x" ∧ r.value = Value.num ⟨10, 1⟩ ∧ r.type = RowType.number) ∨
      containsSub "x*2" r.name = false)
    (hx : ∃ tbl ∈ m.stateTables, ∃ r ∈ tbl.data, r.name = "x") :
    step m (Event.saveStateEv
        [⟨2, "y", Value.str "", RowType.formula, none, none, some "x*2", none⟩] t1 t2 t3) =
      { m with
        mstate := MState.idle,
        stateTables := m.stateTables ++
          [⟨"table-" ++ natStrS t1, (A.position.1.add ⟨500, 1⟩, A.position.2),
            [⟨2, "y", Value.str "", RowType.formula, none, none, some "x*2",
              some (JSNum.fin ⟨20, 1⟩)⟩]⟩],
        stateTransitions := m.stateTransitions ++
          [⟨"transition-" ++ natStrS t2, aid, "table-" ++ natStrS t1, none⟩] } := by
  obtain ⟨ms, tabs, trans, sel, dlg⟩ := m
  have hst2 : ms = MState.dialogOpen := hst
  have hsel2 : sel = some aid := hsel
  have hfind2 : tabs.find? (fun t => t.id == aid) = some A := hfind
  have hpool2 : ∀ tbl ∈ tabs, ∀ r ∈ tbl.data,
      (r.name = "x" ∧ r.value = Value.num ⟨10, 1⟩ ∧ r.type = RowType.number) ∨
      containsSub "x*2" r.name = false := hpool
  have hx2 : ∃ tbl ∈ tabs, ∃ r ∈ tbl.data, r.name = "x" := hx
  subst hst2
  subst hsel2
  subst hclock
  have hstep : step ⟨MState.dialogOpen, tabs, trans, some aid, dlg⟩
      (Event.saveStateEv
        [⟨2, "y", Value.str "", RowType.formula, none, none, some "x*2", none⟩] t1 t2 t1) =
      { mstate := MState.idle,
        stateTables :=
          match tabs.find? (fun t => t.id == aid) with
          | none => tabs
          | some sourceTable => tabs ++
              [⟨"table-" ++ natStrS t1,
                (sourceTable.position.1.add ⟨500, 1⟩, sourceTable.position.2),
                recalculateFormulas
                  [⟨2, "y", Value.str "", RowType.formula, none, none, some "x*2", none⟩]
                  tabs⟩],
        stateTransitions := trans ++
          [⟨"transition-" ++ natStrS t2, aid, "table-" ++ natStrS t1, none⟩],
        selectedTableId := some aid,
        isDialogOpen := dlg } := rfl
  rw [hstep, hfind2]
  have hrows : recalculateFormulas
      [⟨2, "y", Value.str "", RowType.formula, none, none, some "x*2", none⟩] tabs =
      [⟨2, "y", Value.str "", RowType.formula, none, none, some "x*2",
        some (JSNum.fin ⟨20, 1⟩)⟩] := by
    show [(⟨2, "y", Value.str "", RowType.formula, none, none, some "x*2",
        some (calculateFormula "x*2"
          [⟨2, "y", Value.str "", RowType.formula, none, none, some "x*2", none⟩]
          (some tabs))⟩ : DataRow)] = _
    rw [calculateFormula_x_double tabs hpool2 hx2]
  rw [hrows]

theorem C5_save_creates_table_witness :
    step ⟨MState.dialogOpen,
        [⟨"A", (⟨0, 1⟩, ⟨0, 1⟩),
          [⟨1, "x", Value.num ⟨10, 1⟩, RowType.number, none, none, none, none⟩]⟩],
        [], some "A", true⟩
      (Event.saveStateEv
        [⟨2, "y", Value.str "", RowType.formula, none, none, some "x*2", none⟩]
        100 100 100) =
      ⟨MState.idle,
        [⟨"A", (⟨0, 1⟩, ⟨0, 1⟩),
          [⟨1, "x", Value.num ⟨10, 1⟩, RowType.number, none, none, none, none⟩]⟩,
         ⟨"table-100", (⟨500, 1⟩, ⟨0, 1⟩),
          [⟨2, "y", Value.str "", RowType.formula, none, none, some "x*2",
            some (JSNum.fin ⟨20, 1⟩)⟩]⟩],
        [⟨"transition-100", "A", "table-100", none⟩],
        some "A", true⟩ := by
  have h := C5_save_creates_table
    ⟨MState.dialogOpen,
      [⟨"A", (⟨0, 1⟩, ⟨0, 1⟩),
        [⟨1, "x", Value.num ⟨10, 1⟩, RowType.number, none, none, none, none⟩]⟩],
      [], some "A", true⟩
    "A"
    ⟨"A", (⟨0, 1⟩, ⟨0, 1⟩),
      [⟨1, "x", Value.num ⟨10, 1⟩, RowType.number, none, none, none, none⟩]⟩
    100 100 100 rfl rfl (by decide) rfl (by decide) (by decide)
  rw [h]
  decide

theorem list_map_id_of_mem {α : Type} (f : α → α) :
    ∀ (l : List α), (∀ x ∈ l, f x = x) → l.map f = l := by
  intro l
  induction l with
  | nil => intro _; rfl
  | cons a l ih =>
    intro h
    rw [List.map_cons, h a (List.mem_cons_self a l),
      ih (fun x hx => h x (List.mem_cons_of_mem _ hx))]

theorem list_map_three_id {α : Type} (f1 f2 f3 : α → α) :
    ∀ (l : List α), (∀ x ∈ l, f3 (f2 (f1 x)) = x) → ((l.map f1).map f2).map f3 = l := by
  intro l
  induction l with
  | nil => intro _; rfl
  | cons a l ih =>
    intro h
    simp only [List.map_cons]
    rw [h a (List.mem_cons_self a l), ih (fun x hx => h x (List.mem_cons_of_mem _ hx))]

theorem jsonValue_of_not_date {v : Value} (h : isDateValue v = false) : jsonValue v = v := by
  cases v with
  | num q => rfl
  | str s => rfl
  | date ms => simp [isDateValue] at h

theorem rehydrateRow_of_not_date {r : DataRow} (h : r.type ≠ RowType.date) :
    rehydrateRow r = r := by
  obtain ⟨rid, rname, rvalue, rtype, rdf, rout, rform, rres⟩ := r
  unfold rehydrateRow
  cases rtype <;> cases rvalue <;> first | rfl | exact absurd rfl h

theorem recalcTablesGo_fixed :
    ∀ (rest done : List StateTable),
      (∀ t ∈ rest, recalculateFormulas t.data (done ++ rest) = t.data) →
      recalcTablesGo done rest = done ++ rest := by
  intro rest
  induction rest with
  | nil =>
    intro done _
    simp [recalcTablesGo]
  | cons t rest ih =>
    intro done h
    unfold recalcTablesGo
    rw [h t (List.mem_cons_self t rest)]
    rw [show ({ t with data := t.data } : StateTable) = t from rfl]
    have h2 : ∀ u ∈ rest, recalculateFormulas u.data ((done ++ [t]) ++ rest) = u.data := by
      intro u hu
      rw [List.append_assoc]
      exact h u (List.mem_cons_of_mem _ hu)
    rw [ih (done ++ [t]) h2, List.append_assoc]
    rfl

theorem save_load_row_id (tableData : List DataRow) (tables : List StateTable) (r : DataRow)
    (h : (r.type = RowType.date ∧ (∃ ms, r.value = Value.date ms) ∧
        (r.result = none ∨ ∃ q, r.result = some (JSNum.fin q))) ∨
      (r.type ≠ RowType.date ∧ isDateValue r.value = false ∧
        formulaTruthy r.formula = true ∧
        (∃ q, calculateFormula (r.formula.getD "") tableData (some tables) = JSNum.fin q) ∧
        r.result = some (calculateFormula (r.formula.getD "") tableData (some tables))) ∨
      (r.type ≠ RowType.date ∧ isDateValue r.value = false ∧
        r.formula = some "" ∧ (∃ s, r.output = some s) ∧
        (r.result = none ∨ ∃ q, r.result = some (JSNum.fin q)))) :
    rehydrateRow (jsonRow (saveRow tableData tables r)) = r := by
  obtain ⟨rid, rname, rvalue, rtype, rdf, rout, rform, rres⟩ := r
  rcases h with ⟨ht, ⟨ms, hv⟩, hres⟩ | ⟨ht, hdv, htr, ⟨q, hq⟩, hres⟩ |
    ⟨ht, hdv, hf, ⟨s, hout⟩, hres⟩
  · have ht2 : rtype = RowType.date := ht
    have hv2 : rvalue = Value.date ms := hv
    subst ht2
    subst hv2
    rcases hres with h0 | ⟨q, h0⟩
    · have h02 : rres = none := h0
      subst h02
      show (⟨rid, rname, Value.date (parseDateStr (dateToISO ms)), RowType.date, rdf, rout,
        rform, none⟩ : DataRow) =
        ⟨rid, rname, Value.date ms, RowType.date, rdf, rout, rform, none⟩
      rw [parseDateStr_dateToISO]
    · have h02 : rres = some (JSNum.fin q) := h0
      subst h02
      show (⟨rid, rname, Value.date (parseDateStr (dateToISO ms)), RowType.date, rdf, rout,
        rform, some (JSNum.fin q)⟩ : DataRow) =
        ⟨rid, rname, Value.date ms, RowType.date, rdf, rout, rform, some (JSNum.fin q)⟩
      rw [parseDateStr_dateToISO]
  · have ht2 : rtype ≠ RowType.date := ht
    have hdv2 : isDateValue rvalue = false := hdv
    have htr2 : formulaTruthy rform = true := htr
    have hq2 : calculateFormula (rform.getD "") tableData (some tables) = JSNum.fin q := hq
    have hres2 : rres = some (calculateFormula (rform.getD "") tableData (some tables)) := hres
    subst hres2
    have hb : (rtype == RowType.date) = false := by
      cases rtype <;> first | rfl | exact absurd rfl ht2
    have hsave : saveRow tableData tables
        ⟨rid, rname, rvalue, rtype, rdf, rout, rform,
          some (calculateFormula (rform.getD "") tableData (some tables))⟩ =
        ⟨rid, rname, rvalue, rtype, rdf, rout, rform, some (JSNum.fin q)⟩ := by
      unfold saveRow
      rw [if_neg]
      · rw [if_pos]
        · show (⟨rid, rname, rvalue, rtype, rdf, rout, rform,
            some (calculateFormula (rform.getD "") tableData (some tables))⟩ : DataRow) =
            ⟨rid, rname, rvalue, rtype, rdf, rout, rform, some (JSNum.fin q)⟩
          rw [hq2]
        · exact htr2
      · simp [hb]
    rw [hsave]
    rw [hq2]
    show rehydrateRow (⟨rid, rname, jsonValue rvalue, rtype, rdf, rout, rform,
      some (JSNum.fin q)⟩ : DataRow) =
      ⟨rid, rname, rvalue, rtype, rdf, rout, rform, some (JSNum.fin q)⟩
    rw [jsonValue_of_not_date hdv2]
    exact rehydrateRow_of_not_date ht2
  · have ht2 : rtype ≠ RowType.date := ht
    have hdv2 : isDateValue rvalue = false := hdv
    have hf2 : rform = some "" := hf
    have hout2 : rout = some s := hout
    subst hf2
    subst hout2
    have hb : (rtype == RowType.date) = false := by
      cases rtype <;> first | rfl | exact absurd rfl ht2
    have hsave : saveRow tableData tables
        ⟨rid, rname, rvalue, rtype, rdf, some s, some "", rres⟩ =
        ⟨rid, rname, rvalue, rtype, rdf, some s, some "", rres⟩ := by
      unfold saveRow
      rw [if_neg]
      · rw [if_neg]
        · show (⟨rid, rname, rvalue, rtype, rdf, some (jsOrEmpty (some s)),
            some (jsOrEmpty (some "")), rres⟩ : DataRow) = _
          rfl
        · show ¬(formulaTruthy (some "") = true)
          decide
      · simp [hb]
    rw [hsave]
    rcases hres with h0 | ⟨q, h0⟩
    · have h02 : rres = none := h0
      subst h02
      show rehydrateRow (⟨rid, rname, jsonValue rvalue, rtype, rdf, some s, some "",
        none⟩ : DataRow) = ⟨rid, rname, rvalue, rtype, rdf, some s, some "", none⟩
      rw [jsonValue_of_not_date hdv2]
      exact rehydrateRow_of_not_date ht2
    · have h02 : rres = some (JSNum.fin q) := h0
      subst h02
      show rehydrateRow (⟨rid, rname, jsonValue rvalue, rtype, rdf, some s, some "",
        some (JSNum.fin q)⟩ : DataRow) =
        ⟨rid, rname, rvalue, rtype, rdf, some s, some "", some (JSNum.fin q)⟩
      rw [jsonValue_of_not_date hdv2]
      exact rehydrateRow_of_not_date ht2

/-- C9 counterexample: the round trip is not the identity on every
input.  A formula row whose stored result (5) is stale relative to its
formula ("1+1") comes back with the recomputed result 2: saveState
recomputes formula results against the freshest data, and loadState
recalculates again, so the stale stored value is not reproduced. -/
theorem C9_counterexample :
    loadState (saveState
      [⟨"T", (⟨0, 1⟩, ⟨0, 1⟩),
        [⟨1, "f", Value.str "", RowType.formula, none, none, some "1+1",
          some (JSNum.fin ⟨5, 1⟩)⟩]⟩] []) =
      ([⟨"T", (⟨0, 1⟩, ⟨0, 1⟩),
        [⟨1, "f", Value.str "", RowType.formula, none, none, some "1+1",
          some (JSNum.fin ⟨2, 1⟩)⟩]⟩], []) ∧
    (([⟨"T", (⟨0, 1⟩, ⟨0, 1⟩),
        [⟨1, "f", Value.str "", RowType.formula, none, none, some "1+1",
          some (JSNum.fin ⟨2, 1⟩)⟩]⟩] : List StateTable), ([] : List StateTransition)) ≠
      ([⟨"T", (⟨0, 1⟩, ⟨0, 1⟩),
        [⟨1, "f", Value.str "", RowType.formula, none, none, some "1+1",
          some (JSNum.fin ⟨5, 1⟩)⟩]⟩], []) := by
  constructor <;> decide

/-- C9 (amended): load after save is the identity on tables and
transitions whose rows are consistent with what the save path itself
enforces: date-typed rows hold date values (restored to the same epoch
millisecond) with absent-or-finite stored results; rows with a truthy
formula are non-date-typed, hold non-date values, and store exactly the
finite result of their formula against the freshest sibling data; and
all remaining rows are non-date-typed with non-date values, an empty
formula string, a present output, and an absent-or-finite result. -/
theorem C9_round_trip (tables : List StateTable) (transitions : List StateTransition)
    (hrows : ∀ t ∈ tables, ∀ r ∈ t.data,
      (r.type = RowType.date ∧ (∃ ms, r.value = Value.date ms) ∧
        (r.result = none ∨ ∃ q, r.result = some (JSNum.fin q))) ∨
      (r.type ≠ RowType.date ∧ isDateValue r.value = false ∧
        formulaTruthy r.formula = true ∧
        (∃ q, calculateFormula (r.formula.getD "") t.data (some tables) = JSNum.fin q) ∧
        r.result = some (calculateFormula (r.formula.getD "") t.data (some tables))) ∨
      (r.type ≠ RowType.date ∧ isDateValue r.value = false ∧
        r.formula = some "" ∧ (∃ s, r.output = some s) ∧
        (r.result = none ∨ ∃ q, r.result = some (JSNum.fin q)))) :
    loadState (saveState tables transitions) = (tables, transitions) := by
  have htabs : ((tables.map (saveTable tables)).map
      (fun t => { t with data := t.data.map jsonRow })).map
      (fun t => { t with data := t.data.map rehydrateRow }) = tables := by
    apply list_map_three_id
    intro t ht
    dsimp only [saveTable]
    rw [list_map_three_id (saveRow t.data tables) jsonRow rehydrateRow t.data
      (fun r hr => save_load_row_id t.data tables r (hrows t ht r hr))]
  unfold loadState saveState
  dsimp only
  rw [htabs]
  have hfix : ∀ t ∈ tables, recalculateFormulas t.data tables = t.data := by
    intro t ht
    unfold recalculateFormulas
    apply list_map_id_of_mem
    intro r hr
    by_cases hc : (r.type == RowType.formula && formulaTruthy r.formula) = true
    · rw [if_pos hc]
      rcases hrows t ht r hr with ⟨ht2, _, _⟩ | ⟨_, _, _, _, hres⟩ | ⟨_, _, hf, _, _⟩
      · rw [ht2] at hc
        simp at hc
      · rw [← hres]
      · rw [hf] at hc
        simp [formulaTruthy] at hc
    · rw [if_neg hc]
  rw [recalcTablesGo_fixed tables []
    (fun t ht => by rw [List.nil_append]; exact hfix t ht)]
  rfl

theorem C9_round_trip_witness :
    loadState (saveState
      [⟨"T", (⟨0, 1⟩, ⟨0, 1⟩),
        [⟨1, "d", Value.date 123, RowType.date, none, none, none, none⟩]⟩]
      [⟨"tr", "a", "b", none⟩]) =
      ([⟨"T", (⟨0, 1⟩, ⟨0, 1⟩),
        [⟨1, "d", Value.date 123, RowType.date, none, none, none, none⟩]⟩],
       [⟨"tr", "a", "b", none⟩]) :=
  C9_round_trip
    [⟨"T", (⟨0, 1⟩, ⟨0, 1⟩),
      [⟨1, "d", Value.date 123, RowType.date, none, none, none, none⟩]⟩]
    [⟨"tr", "a", "b", none⟩]
    (by
      intro t ht r hr
      simp only [List.mem_singleton] at ht
      subst ht
      simp only [List.mem_singleton] at hr
      subst hr
      exact Or.inl ⟨rfl, ⟨123, rfl⟩, Or.inl rfl⟩)

end StateViz


